import Mathlib

/-!
# Verification of the RansomwareTracker collection pipeline

This file gives a shallow embedding, in Lean 4, of the core data-handling
functions of the RansomwareTracker repository, and proves (or refutes) the
behavioural claims made about them by the natural-language specification.

Embedded components:
* the incremental record store (`update_victim_database` in
  `lockbit_tracker.py`): victim records are modelled as JSON-like ordered
  key/value association lists (`VRec`), exactly mirroring Python dicts;
* the mirror-reliability selector (`get_working_mirrors`);
* the free-text field recoverer (`parse_structured_description` in
  `core/database.py`), including executable models of the regular
  expressions it uses;
* the parser registry and the LockBit list/detail parsers
  (`core/database.py`, `scrapers/lockbit.py`);
* the batch cap in `BaseScraper.scrape_victims` (`scrapers/base.py`);
* the STIX exporter identifier derivation (`core/exporters.py`).
-/

/-! ## JSON-like values and Python-dict association lists

Python dict values flowing through the tracker are strings, integers, `None`,
lists and nested dicts.  `Value` models exactly that.  A Python dict is
modelled as an insertion-ordered association list with pairwise-distinct keys
(`VRec`); `dictSet` mirrors `d[k] = v` (replace in place, or append at the
end), `findEntry` mirrors key lookup.
-/

inductive Value where
  | str (s : String)
  | int (n : Int)
  | null
  | list (xs : List Value)
  | dict (kvs : List (String × Value))

mutual

/-- Structural boolean equality on `Value`, modelling Python `==` on the
JSON fragment used by the tracker. -/
def Value.beq : Value → Value → Bool
  | .str a, .str b => a == b
  | .int a, .int b => a == b
  | .null, .null => true
  | .list xs, .list ys => Value.beqList xs ys
  | .dict xs, .dict ys => Value.beqPairs xs ys
  | _, _ => false

/-- Elementwise `Value.beq` on lists. -/
def Value.beqList : List Value → List Value → Bool
  | [], [] => true
  | a :: as, b :: bs => Value.beq a b && Value.beqList as bs
  | _, _ => false

/-- Elementwise `Value.beq` on key/value pair lists. -/
def Value.beqPairs : List (String × Value) → List (String × Value) → Bool
  | [], [] => true
  | (k, a) :: as, (l, b) :: bs => k == l && Value.beq a b && Value.beqPairs as bs
  | _, _ => false

end

/-- Python truthiness (`bool(v)`) on the modelled values. -/
def Value.truthy : Value → Bool
  | .str s => s ≠ ""
  | .int n => n ≠ 0
  | .null => false
  | .list xs => !xs.isEmpty
  | .dict kvs => !kvs.isEmpty

/-- A victim record: a Python dict in insertion order. -/
abbrev VRec := List (String × Value)

/-- Key lookup in a record (`d[k]` / `k in d`): first matching entry. -/
def findEntry : VRec → String → Option Value
  | [], _ => none
  | (k, v) :: t, key => if k = key then some v else findEntry t key

/-- Python `d.get(k)`: the stored value, or `None` when the key is absent. -/
def pyGet (r : VRec) (k : String) : Value :=
  (findEntry r k).getD .null

/-- Python `d.get(k, dflt)`. -/
def pyGetD (r : VRec) (k : String) (dflt : Value) : Value :=
  (findEntry r k).getD dflt

/-- Python `d[k] = v`: replace the entry in place, or append it at the end. -/
def dictSet : VRec → String → Value → VRec
  | [], k, v => [(k, v)]
  | (k', v') :: t, k, v =>
    if k' = k then (k, v) :: t else (k', v') :: dictSet t k v

mutual

/-- `Value.beq` is reflexive. -/
theorem Value.beq_refl : ∀ v : Value, Value.beq v v = true
  | .str _ => by simp [Value.beq]
  | .int _ => by simp [Value.beq]
  | .null => rfl
  | .list xs => by simpa [Value.beq] using Value.beqList_refl xs
  | .dict xs => by simpa [Value.beq] using Value.beqPairs_refl xs

/-- `Value.beqList` is reflexive. -/
theorem Value.beqList_refl : ∀ xs : List Value, Value.beqList xs xs = true
  | [] => rfl
  | a :: as => by simp [Value.beqList, Value.beq_refl a, Value.beqList_refl as]

/-- `Value.beqPairs` is reflexive. -/
theorem Value.beqPairs_refl : ∀ xs : List (String × Value), Value.beqPairs xs xs = true
  | [] => rfl
  | (_, a) :: as => by simp [Value.beqPairs, Value.beq_refl a, Value.beqPairs_refl as]

end

/-! ## The incremental record store

`update_victim_database(victims, history_file)` in `lockbit_tracker.py`
(lines 352-404).  The function loads the persisted history (a JSON array of
victim dicts), builds `existing_victims = {v['domain']: v for v in history
if 'domain' in v}` — in which a later record with the same domain shadows an
earlier one, so the dict aliases the *last* occurrence of each domain — and
then processes each incoming record in order:

* a record whose `.get('domain')` is falsy is skipped;
* an unseen domain: `victim['first_seen'] = now`, `history.append(victim)`,
  domain recorded as new;
* a seen domain: if the incoming status (`victim.get('status')`) differs
  from the stored one, the entry
  `{'status': existing.get('status'), 'timestamp': existing.get('updated')}`
  is appended to `existing['status_history']` (created as `[]` if the key is
  absent), `existing['status']` is set to the incoming status, and the
  domain is recorded as updated; afterwards every key of the incoming dict
  except `first_seen` and `status_history` is copied onto the stored record.

Because the lookup dict is built once, before the loop, records appended
during the loop are never found by it.  The mutation of the aliased record
is modelled as an in-place update of the history list at the aliased
record's index, which is stable because the loop only appends.
-/

/-- Index of the lookup-dict alias for domain `d`: the *last* record of the
initially-loaded history whose `domain` key is present with value `d`. -/
def lastDomainIdx : List VRec → Value → Option Nat
  | [], _ => none
  | e :: t, d =>
    match lastDomainIdx t d with
    | some i => some (i + 1)
    | none =>
      match findEntry e "domain" with
      | some v => if Value.beq v d then some 0 else none
      | none => none

/-- Python `list.append` on a `status_history` value; on a non-list value the
source would raise, which well-formedness hypotheses rule out. -/
def shAppend (v e : Value) : Value :=
  match v with
  | .list xs => .list (xs ++ [e])
  | x => x

/-- The status-transition entry appended on a status change:
`{'status': existing.get('status'), 'timestamp': existing.get('updated')}`. -/
def statusEntry (existing : VRec) : Value :=
  .dict [("status", pyGet existing "status"), ("timestamp", pyGet existing "updated")]

/-- The field-copy loop: `for key, value in victim.items(): if key !=
'first_seen' and key != 'status_history': existing[key] = value`. -/
def overwriteFields (existing victim : VRec) : VRec :=
  victim.foldl
    (fun acc kv =>
      if kv.1 = "first_seen" ∨ kv.1 = "status_history" then acc
      else dictSet acc kv.1 kv.2)
    existing

/-- The existing-domain branch of the merge loop body: conditional
status-history append and status write, then the field-copy loop. -/
def mergeExisting (existing victim : VRec) : VRec :=
  let e1 :=
    if Value.beq (pyGet victim "status") (pyGet existing "status") then existing
    else
      dictSet
        (dictSet existing "status_history"
          (shAppend (pyGetD existing "status_history" (.list [])) (statusEntry existing)))
        "status" (pyGet victim "status")
  overwriteFields e1 victim

/-- State threaded through the merge loop: the evolving history list and the
accumulated new/updated domain reports. -/
structure MergeState where
  history : List VRec
  new_victims : List Value
  updated_victims : List Value

/-- One iteration of the merge loop of `update_victim_database`, processing a
single incoming record against the pre-built domain lookup of the initially
loaded history `orig`. -/
def mergeOne (orig : List VRec) (now : String) (st : MergeState) (victim : VRec) :
    MergeState :=
  let domain := pyGet victim "domain"
  if Value.truthy domain then
    match lastDomainIdx orig domain with
    | none =>
      { history := st.history ++ [dictSet victim "first_seen" (.str now)]
        new_victims := st.new_victims ++ [domain]
        updated_victims := st.updated_victims }
    | some i =>
      let existing := st.history.getD i []
      { history := st.history.set i (mergeExisting existing victim)
        new_victims := st.new_victims
        updated_victims :=
          if Value.beq (pyGet victim "status") (pyGet existing "status") then
            st.updated_victims
          else st.updated_victims ++ [pyGet victim "domain"] }
  else st

/-- `update_victim_database(victims, history_file)`: merge the batch into the
loaded history and report the new and updated domains.  `now` stands for
`datetime.datetime.now().strftime(...)` at this run. -/
def update_victim_database (victims : List VRec) (history : List VRec) (now : String) :
    MergeState :=
  victims.foldl (mergeOne history now) ⟨history, [], []⟩

/-! ## Well-formedness of Python-dict models

A Python dict has pairwise-distinct keys; `status_history`, when present, is
a list (otherwise the source's `.append` would raise).  Batches with two
records carrying the same truthy domain are expressible (and are exactly the
idempotence counterexample), so domain distinctness is a separate predicate.
-/

/-- Key list of a record. -/
def keysOf (r : VRec) : List String := r.map Prod.fst

/-- Is the value a Python list? -/
def Value.isList : Value → Bool
  | .list _ => true
  | _ => false

/-- A record's `status_history`, when present, holds a list. -/
def shOk (r : VRec) : Bool :=
  match findEntry r "status_history" with
  | some v => v.isList
  | none => true

/-- Every record of a history has a list-valued (or absent) `status_history`. -/
def wfHistory (h : List VRec) : Bool := h.all shOk

/-- The truthy domains occurring in a batch, in order. -/
def truthyDomains (B : List VRec) : List Value :=
  (B.map (fun r => pyGet r "domain")).filter Value.truthy

/-- No two values of the list are `Value.beq`-equal (in either orientation). -/
def noDupBeq : List Value → Bool
  | [] => true
  | d :: ds => ds.all (fun d' => !Value.beq d' d && !Value.beq d d') && noDupBeq ds

/-! ## Dictionary operation lemmas -/

theorem findEntry_dictSet_self (r : VRec) (k : String) (v : Value) :
    findEntry (dictSet r k v) k = some v := by
  induction r with
  | nil => simp [dictSet, findEntry]
  | cons hd t ih =>
    obtain ⟨k', v'⟩ := hd
    by_cases h : k' = k
    · simp [dictSet, h, findEntry]
    · simp [dictSet, h, findEntry, ih]

theorem findEntry_dictSet_ne : ∀ (r : VRec) (k k' : String) (v : Value),
    k' ≠ k → findEntry (dictSet r k v) k' = findEntry r k'
  | [], k, k', v, h => by simp [dictSet, findEntry, Ne.symm h]
  | (k0, v0) :: t, k, k', v, h => by
    by_cases h0 : k0 = k
    · subst h0
      simp [dictSet, findEntry, Ne.symm h]
    · by_cases h1 : k0 = k'
      · subst h1
        simp [dictSet, h0, findEntry]
      · simp [dictSet, h0, findEntry, h1, findEntry_dictSet_ne t k k' v h]

theorem dictSet_self : ∀ (r : VRec) (k : String) (v : Value),
    findEntry r k = some v → dictSet r k v = r
  | [], k, v, h => by simp [findEntry] at h
  | (k0, v0) :: t, k, v, h => by
    by_cases h0 : k0 = k
    · subst h0
      simp only [findEntry, if_pos, Option.some.injEq] at h
      subst h
      simp [dictSet]
    · simp only [findEntry, if_neg h0] at h
      simp [dictSet, h0, dictSet_self t k v h]

theorem list_set_same {α : Type} (l : List α) (i : Nat) (x : α)
    (h : l[i]? = some x) : l.set i x = l := by
  induction l generalizing i with
  | nil => simp at h
  | cons hd t ih =>
    cases i with
    | zero =>
      simp only [List.getElem?_cons_zero, Option.some.injEq] at h
      simp [h]
    | succ j =>
      simp only [List.getElem?_cons_succ] at h
      simp [ih _ h]

/-! ## Field-copy loop lemmas -/

theorem overwriteFields_cons (e : VRec) (k : String) (v : Value) (t : VRec) :
    overwriteFields e ((k, v) :: t) =
      overwriteFields
        (if k = "first_seen" ∨ k = "status_history" then e else dictSet e k v) t := rfl

theorem findEntry_overwriteFields_excepted : ∀ (r e : VRec) (k : String),
    (k = "first_seen" ∨ k = "status_history") →
    findEntry (overwriteFields e r) k = findEntry e k
  | [], e, k, _ => by simp [overwriteFields]
  | (k0, v0) :: t, e, k, h => by
    rw [overwriteFields_cons]
    by_cases h0 : k0 = "first_seen" ∨ k0 = "status_history"
    · rw [if_pos h0]
      exact findEntry_overwriteFields_excepted t e k h
    · rw [if_neg h0, findEntry_overwriteFields_excepted t _ k h]
      exact findEntry_dictSet_ne _ _ _ _ fun heq => h0 (heq ▸ h)

theorem findEntry_overwriteFields_notMem : ∀ (r e : VRec) (k : String),
    k ∉ keysOf r → findEntry (overwriteFields e r) k = findEntry e k
  | [], e, k, _ => by simp [overwriteFields]
  | (k0, v0) :: t, e, k, h => by
    simp only [keysOf, List.map_cons, List.mem_cons, not_or] at h
    rw [overwriteFields_cons]
    by_cases h0 : k0 = "first_seen" ∨ k0 = "status_history"
    · rw [if_pos h0]
      exact findEntry_overwriteFields_notMem t e k h.2
    · rw [if_neg h0, findEntry_overwriteFields_notMem t _ k h.2]
      exact findEntry_dictSet_ne _ _ _ _ h.1

theorem findEntry_overwriteFields_mem : ∀ (r e : VRec) (k : String) (v : Value),
    (keysOf r).Nodup → (k, v) ∈ r → ¬(k = "first_seen" ∨ k = "status_history") →
    findEntry (overwriteFields e r) k = some v
  | [], e, k, v, _, hmem, _ => by simp at hmem
  | (k0, v0) :: t, e, k, v, hnd, hmem, h1 => by
    simp only [keysOf, List.map_cons, List.nodup_cons] at hnd
    rcases List.mem_cons.mp hmem with heq | htail
    · cases heq
      rw [overwriteFields_cons, if_neg h1,
        findEntry_overwriteFields_notMem t _ _ hnd.1]
      exact findEntry_dictSet_self _ _ _
    · rw [overwriteFields_cons]
      by_cases h0 : k0 = "first_seen" ∨ k0 = "status_history"
      · rw [if_pos h0]
        exact findEntry_overwriteFields_mem t e k v hnd.2 htail h1
      · rw [if_neg h0]
        exact findEntry_overwriteFields_mem t _ k v hnd.2 htail h1

theorem overwriteFields_id : ∀ (r e : VRec),
    (∀ p ∈ r, ¬(p.1 = "first_seen" ∨ p.1 = "status_history") →
      findEntry e p.1 = some p.2) →
    overwriteFields e r = e
  | [], e, _ => by simp [overwriteFields]
  | (k0, v0) :: t, e, h => by
    rw [overwriteFields_cons]
    by_cases h0 : k0 = "first_seen" ∨ k0 = "status_history"
    · rw [if_pos h0]
      exact overwriteFields_id t e fun p hp => h p (List.mem_cons_of_mem _ hp)
    · rw [if_neg h0,
        dictSet_self _ _ _ (h (k0, v0) (List.mem_cons_self (k0, v0) t) h0)]
      exact overwriteFields_id t e fun p hp => h p (List.mem_cons_of_mem _ hp)

mutual

/-- `Value.beq` implies propositional equality. -/
theorem Value.eq_of_beq : ∀ a b : Value, Value.beq a b = true → a = b
  | .str a, .str b, h => by
    simp only [Value.beq, beq_iff_eq] at h
    rw [h]
  | .int a, .int b, h => by
    simp only [Value.beq, beq_iff_eq] at h
    rw [h]
  | .null, .null, _ => rfl
  | .list xs, .list ys, h => by
    rw [Value.eqList_of_beq xs ys (by simpa [Value.beq] using h)]
  | .dict xs, .dict ys, h => by
    rw [Value.eqPairs_of_beq xs ys (by simpa [Value.beq] using h)]
  | .str _, .int _, h => by simp [Value.beq] at h
  | .str _, .null, h => by simp [Value.beq] at h
  | .str _, .list _, h => by simp [Value.beq] at h
  | .str _, .dict _, h => by simp [Value.beq] at h
  | .int _, .str _, h => by simp [Value.beq] at h
  | .int _, .null, h => by simp [Value.beq] at h
  | .int _, .list _, h => by simp [Value.beq] at h
  | .int _, .dict _, h => by simp [Value.beq] at h
  | .null, .str _, h => by simp [Value.beq] at h
  | .null, .int _, h => by simp [Value.beq] at h
  | .null, .list _, h => by simp [Value.beq] at h
  | .null, .dict _, h => by simp [Value.beq] at h
  | .list _, .str _, h => by simp [Value.beq] at h
  | .list _, .int _, h => by simp [Value.beq] at h
  | .list _, .null, h => by simp [Value.beq] at h
  | .list _, .dict _, h => by simp [Value.beq] at h
  | .dict _, .str _, h => by simp [Value.beq] at h
  | .dict _, .int _, h => by simp [Value.beq] at h
  | .dict _, .null, h => by simp [Value.beq] at h
  | .dict _, .list _, h => by simp [Value.beq] at h

/-- `Value.beqList` implies propositional equality. -/
theorem Value.eqList_of_beq : ∀ xs ys : List Value, Value.beqList xs ys = true → xs = ys
  | [], [], _ => rfl
  | [], _ :: _, h => by simp [Value.beqList] at h
  | _ :: _, [], h => by simp [Value.beqList] at h
  | a :: as, b :: bs, h => by
    simp only [Value.beqList, Bool.and_eq_true] at h
    rw [Value.eq_of_beq a b h.1, Value.eqList_of_beq as bs h.2]

/-- `Value.beqPairs` implies propositional equality. -/
theorem Value.eqPairs_of_beq :
    ∀ xs ys : List (String × Value), Value.beqPairs xs ys = true → xs = ys
  | [], [], _ => rfl
  | [], _ :: _, h => by simp [Value.beqPairs] at h
  | _ :: _, [], h => by simp [Value.beqPairs] at h
  | (k, a) :: as, (l, b) :: bs, h => by
    simp only [Value.beqPairs, Bool.and_eq_true, beq_iff_eq] at h
    rw [h.1.1, Value.eq_of_beq a b h.1.2, Value.eqPairs_of_beq as bs h.2]

end

/-- `Value.beq` decides propositional equality. -/
theorem Value.beq_iff_eq (a b : Value) : Value.beq a b = true ↔ a = b :=
  ⟨Value.eq_of_beq a b, fun h => h ▸ Value.beq_refl a⟩

/-- `Value.beq` is `false` exactly on unequal values. -/
theorem Value.beq_false_iff_ne (a b : Value) : Value.beq a b = false ↔ a ≠ b := by
  constructor
  · intro h heq
    rw [heq, Value.beq_refl b] at h
    cases h
  · intro h
    cases hb : Value.beq a b
    · rfl
    · exact absurd (Value.eq_of_beq a b hb) h

/-! ## Domain lookup lemmas -/

/-- The `domain` field stored at position `i` of a history list. -/
def domAt (l : List VRec) (i : Nat) : Option Value :=
  match l[i]? with
  | some e => findEntry e "domain"
  | none => none

theorem domAt_cons_succ (e : VRec) (t : List VRec) (i : Nat) :
    domAt (e :: t) (i + 1) = domAt t i := by
  simp [domAt]

theorem domAt_append_left (l1 l2 : List VRec) (i : Nat) (h : i < l1.length) :
    domAt (l1 ++ l2) i = domAt l1 i := by
  simp [domAt, List.getElem?_append_left h]

theorem domAt_append_right (l1 l2 : List VRec) (j : Nat) :
    domAt (l1 ++ l2) (l1.length + j) = domAt l2 j := by
  have h : l1.length ≤ l1.length + j := Nat.le_add_right _ _
  simp [domAt, List.getElem?_append_right h]

theorem domAt_set_self (l : List VRec) (i : Nat) (e : VRec) (h : i < l.length) :
    domAt (l.set i e) i = findEntry e "domain" := by
  simp [domAt, List.getElem?_set_eq_of_lt e h]

theorem domAt_set_ne (l : List VRec) (i j : Nat) (e : VRec) (h : i ≠ j) :
    domAt (l.set i e) j = domAt l j := by
  simp [domAt, List.getElem?_set_ne h]

theorem domAt_none_of_ge (l : List VRec) (i : Nat) (h : l.length ≤ i) :
    domAt l i = none := by
  simp [domAt, List.getElem?_eq_none h]

theorem lastDomainIdx_lt : ∀ (l : List VRec) (d : Value) (i : Nat),
    lastDomainIdx l d = some i → i < l.length
  | [], _, _, h => by simp [lastDomainIdx] at h
  | e :: t, d, i, h => by
    simp only [lastDomainIdx] at h
    split at h
    · rename_i j hj
      obtain rfl : j + 1 = i := by simpa using h
      have := lastDomainIdx_lt t d j hj
      simp only [List.length_cons]
      omega
    · split at h
      · split at h
        · obtain rfl : (0 : Nat) = i := by simpa using h
          simp
        · cases h
      · cases h

theorem lastDomainIdx_at : ∀ (l : List VRec) (d : Value) (i : Nat),
    lastDomainIdx l d = some i → domAt l i = some d
  | [], _, _, h => by simp [lastDomainIdx] at h
  | e :: t, d, i, h => by
    simp only [lastDomainIdx] at h
    split at h
    · rename_i j hj
      obtain rfl : j + 1 = i := by simpa using h
      rw [domAt_cons_succ]
      exact lastDomainIdx_at t d j hj
    · split at h
      · rename_i v hv
        split at h
        · rename_i hb
          obtain rfl : (0 : Nat) = i := by simpa using h
          have hvd : v = d := Value.eq_of_beq v d hb
          simp [domAt, hv, hvd]
        · cases h
      · cases h

theorem lastDomainIdx_congr : ∀ (l l' : List VRec),
    l.length = l'.length → (∀ i, domAt l i = domAt l' i) →
    ∀ d, lastDomainIdx l d = lastDomainIdx l' d
  | [], [], _, _, _ => rfl
  | [], _ :: _, hl, _, _ => by simp at hl
  | _ :: _, [], hl, _, _ => by simp at hl
  | e :: t, e' :: t', hl, hd, d => by
    have ht : lastDomainIdx t d = lastDomainIdx t' d :=
      lastDomainIdx_congr t t' (by simpa using hl)
        (fun i => by
          have := hd (i + 1)
          rwa [domAt_cons_succ, domAt_cons_succ] at this) d
    have h0 : findEntry e "domain" = findEntry e' "domain" := by
      have := hd 0
      simpa [domAt] using this
    simp only [lastDomainIdx, ht, h0]

theorem lastDomainIdx_append : ∀ (l1 l2 : List VRec) (d : Value),
    lastDomainIdx (l1 ++ l2) d =
      match lastDomainIdx l2 d with
      | some i => some (l1.length + i)
      | none => lastDomainIdx l1 d
  | [], l2, d => by
    cases h : lastDomainIdx l2 d <;> simp [lastDomainIdx, h]
  | e :: t, l2, d => by
    have ih := lastDomainIdx_append t l2 d
    cases h : lastDomainIdx l2 d with
    | some i =>
      rw [h] at ih
      show lastDomainIdx (e :: (t ++ l2)) d = some ((e :: t).length + i)
      simp only [lastDomainIdx, ih, List.length_cons]
      congr 1
      omega
    | none =>
      rw [h] at ih
      simp [List.cons_append, lastDomainIdx, ih]

theorem lastDomainIdx_snoc_ne (l : List VRec) (r : VRec) (d d' : Value)
    (h1 : findEntry r "domain" = some d') (h2 : Value.beq d' d = false) :
    lastDomainIdx (l ++ [r]) d = lastDomainIdx l d := by
  rw [lastDomainIdx_append]
  simp [lastDomainIdx, h1, h2]

theorem lastDomainIdx_snoc_none (l : List VRec) (r : VRec) (d : Value)
    (h1 : findEntry r "domain" = none) :
    lastDomainIdx (l ++ [r]) d = lastDomainIdx l d := by
  rw [lastDomainIdx_append]
  simp [lastDomainIdx, h1]

theorem lastDomainIdx_snoc_self (l : List VRec) (r : VRec) (d : Value)
    (h1 : findEntry r "domain" = some d) :
    lastDomainIdx (l ++ [r]) d = some l.length := by
  rw [lastDomainIdx_append]
  simp [lastDomainIdx, h1, Value.beq_refl]

/-! ## Record lookup helpers -/

theorem findEntry_eq_none_iff (r : VRec) (k : String) :
    findEntry r k = none ↔ k ∉ keysOf r := by
  induction r with
  | nil => simp [findEntry, keysOf]
  | cons hd t ih =>
    obtain ⟨k0, v0⟩ := hd
    by_cases h : k0 = k
    · subst h
      simp [findEntry, keysOf]
    · simp [findEntry, keysOf, h, Ne.symm h, ih]

theorem findEntry_mem (r : VRec) (k : String) (v : Value)
    (h : findEntry r k = some v) : (k, v) ∈ r := by
  induction r with
  | nil => simp [findEntry] at h
  | cons hd t ih =>
    obtain ⟨k0, v0⟩ := hd
    by_cases h0 : k0 = k
    · subst h0
      simp only [findEntry, if_pos] at h
      obtain rfl : v0 = v := by simpa using h
      exact List.mem_cons_self _ _
    · simp only [findEntry, if_neg h0] at h
      exact List.mem_cons_of_mem _ (ih h)

theorem findEntry_of_mem_nodup (r : VRec) (k : String) (v : Value)
    (hnd : (keysOf r).Nodup) (hmem : (k, v) ∈ r) : findEntry r k = some v := by
  induction r with
  | nil => simp at hmem
  | cons hd t ih =>
    obtain ⟨k0, v0⟩ := hd
    simp only [keysOf, List.map_cons, List.nodup_cons] at hnd
    rcases List.mem_cons.mp hmem with heq | htail
    · cases heq
      simp [findEntry]
    · have hne : k0 ≠ k := by
        rintro rfl
        exact hnd.1 (List.mem_map_of_mem Prod.fst htail)
      simp only [findEntry, if_neg hne]
      exact ih hnd.2 htail

theorem findEntry_some_of_truthy (r : VRec) (k : String)
    (h : Value.truthy (pyGet r k) = true) : findEntry r k = some (pyGet r k) := by
  cases hf : findEntry r k with
  | some v => simp [pyGet, hf]
  | none => simp [pyGet, hf, Value.truthy] at h

/-! ## mergeExisting field lemmas -/

theorem mergeExisting_first_seen (e r : VRec) :
    findEntry (mergeExisting e r) "first_seen" = findEntry e "first_seen" := by
  unfold mergeExisting
  rw [findEntry_overwriteFields_excepted _ _ _ (Or.inl rfl)]
  by_cases h : Value.beq (pyGet r "status") (pyGet e "status")
  · rw [if_pos h]
  · rw [if_neg h, findEntry_dictSet_ne _ _ _ _ (by decide),
      findEntry_dictSet_ne _ _ _ _ (by decide)]

theorem mergeExisting_status_history (e r : VRec) :
    findEntry (mergeExisting e r) "status_history" =
      if Value.beq (pyGet r "status") (pyGet e "status") then
        findEntry e "status_history"
      else
        some (shAppend (pyGetD e "status_history" (.list [])) (statusEntry e)) := by
  unfold mergeExisting
  rw [findEntry_overwriteFields_excepted _ _ _ (Or.inr rfl)]
  by_cases h : Value.beq (pyGet r "status") (pyGet e "status")
  · rw [if_pos h, if_pos h]
  · rw [if_neg h, if_neg h, findEntry_dictSet_ne _ _ _ _ (by decide),
      findEntry_dictSet_self]

theorem mergeExisting_mem (e r : VRec) (k : String) (v : Value)
    (hnd : (keysOf r).Nodup) (hmem : (k, v) ∈ r)
    (h1 : ¬(k = "first_seen" ∨ k = "status_history")) :
    findEntry (mergeExisting e r) k = some v :=
  findEntry_overwriteFields_mem r _ k v hnd hmem h1

theorem mergeExisting_notMem (e r : VRec) (k : String)
    (hk : k ∉ keysOf r) (h1 : k ≠ "status") (h2 : k ≠ "status_history") :
    findEntry (mergeExisting e r) k = findEntry e k := by
  unfold mergeExisting
  rw [findEntry_overwriteFields_notMem _ _ _ hk]
  by_cases h : Value.beq (pyGet r "status") (pyGet e "status")
  · rw [if_pos h]
  · rw [if_neg h, findEntry_dictSet_ne _ _ _ _ h1, findEntry_dictSet_ne _ _ _ _ h2]

theorem mergeExisting_status (e r : VRec) (hnd : (keysOf r).Nodup) :
    pyGet (mergeExisting e r) "status" = pyGet r "status" := by
  cases hf : findEntry r "status" with
  | some v =>
    have hmem : ("status", v) ∈ r := findEntry_mem r _ _ hf
    rw [pyGet, mergeExisting_mem e r _ v hnd hmem (by decide), pyGet, hf]
  | none =>
    have hk : "status" ∉ keysOf r := (findEntry_eq_none_iff r "status").mp hf
    have hr : pyGet r "status" = .null := by simp [pyGet, hf]
    rw [hr]
    unfold mergeExisting
    rw [pyGet, findEntry_overwriteFields_notMem _ _ _ hk]
    by_cases h : Value.beq (pyGet r "status") (pyGet e "status")
    · have : pyGet e "status" = .null := by
        have := Value.eq_of_beq _ _ h
        rw [hr] at this
        exact this.symm
      rw [if_pos h]
      cases he : findEntry e "status" with
      | some w =>
        have : w = Value.null := by simpa [pyGet, he] using this
        simp [he, this]
      | none => simp [he]
    · rw [if_neg h, findEntry_dictSet_self]
      simp [hr]

/-! ## Absorption: records that re-merge as no-ops

`absorbs base r` says the history `base` already fully reflects the incoming
record `r`: `r`'s domain resolves in the lookup to a stored record whose
status equals `r`'s and whose non-excepted fields carry exactly `r`'s values.
Re-processing such a record changes nothing and reports nothing.
-/

def absorbs (base : List VRec) (r : VRec) : Prop :=
  Value.truthy (pyGet r "domain") = true →
  ∃ i e, lastDomainIdx base (pyGet r "domain") = some i ∧ base[i]? = some e ∧
    pyGet e "status" = pyGet r "status" ∧
    ∀ p ∈ r, ¬(p.1 = "first_seen" ∨ p.1 = "status_history") →
      findEntry e p.1 = some p.2

theorem mergeOne_absorbed (H1 : List VRec) (now : String) (nv uv : List Value)
    (r : VRec) (h : absorbs H1 r) :
    mergeOne H1 now ⟨H1, nv, uv⟩ r = ⟨H1, nv, uv⟩ := by
  by_cases htr : Value.truthy (pyGet r "domain") = true
  · obtain ⟨i, e, hidx, hget, hstat, hfields⟩ := h htr
    have hgetD : H1.getD i [] = e := by
      rw [List.getD_eq_getElem?_getD, hget]
      rfl
    have hbeq : Value.beq (pyGet r "status") (pyGet e "status") = true := by
      rw [hstat]
      exact Value.beq_refl _
    have hme : mergeExisting e r = e := by
      unfold mergeExisting
      rw [if_pos hbeq]
      exact overwriteFields_id r e hfields
    simp only [mergeOne, htr, if_true, hidx, hgetD, hbeq, hme,
      list_set_same H1 i e hget]
  · simp [mergeOne, htr]

theorem foldl_absorbed (H1 : List VRec) (now : String) :
    ∀ (B : List VRec) (nv uv : List Value), (∀ r ∈ B, absorbs H1 r) →
    B.foldl (mergeOne H1 now) ⟨H1, nv, uv⟩ = ⟨H1, nv, uv⟩
  | [], nv, uv, _ => rfl
  | r :: B', nv, uv, h => by
    rw [List.foldl_cons, mergeOne_absorbed H1 now nv uv r (h r (List.mem_cons_self ..))]
    exact foldl_absorbed H1 now B' nv uv fun r' hr' => h r' (List.mem_cons_of_mem _ hr')

/-! ## Invariant infrastructure for the idempotence proof -/

theorem getElem?_eq_some_getD (l : List VRec) (i : Nat) (h : i < l.length) :
    l[i]? = some (l.getD i []) := by
  rw [List.getD_eq_getElem?_getD]
  cases hf : l[i]? with
  | some e => rfl
  | none =>
    rw [List.getElem?_eq_none_iff] at hf
    omega

theorem domAt_take (l : List VRec) (n i : Nat) (h : i < n) :
    domAt (l.take n) i = domAt l i := by
  simp [domAt, List.getElem?_take, h]

theorem lastDomainIdx_none_of_all : ∀ (l : List VRec) (d : Value),
    (∀ j, j < l.length → domAt l j ≠ some d) → lastDomainIdx l d = none
  | [], _, _ => rfl
  | e :: t, d, h => by
    have ht : lastDomainIdx t d = none :=
      lastDomainIdx_none_of_all t d fun j hj => by
        have := h (j + 1) (by simpa using hj)
        rwa [domAt_cons_succ] at this
    simp only [lastDomainIdx, ht]
    cases hf : findEntry e "domain" with
    | none => rfl
    | some v =>
      have h0 := h 0 (by simp)
      have hvd : v ≠ d := fun hvd => h0 (by simp [domAt, hf, hvd])
      have hb : Value.beq v d = false := (Value.beq_false_iff_ne v d).mpr hvd
      simp [hb]

/-- The truthy domains occurring in a batch distribute over concatenation. -/
theorem truthyDomains_append (l1 l2 : List VRec) :
    truthyDomains (l1 ++ l2) = truthyDomains l1 ++ truthyDomains l2 := by
  simp [truthyDomains]

theorem truthyDomains_cons (r : VRec) (B : List VRec) :
    truthyDomains (r :: B) =
      (if Value.truthy (pyGet r "domain") then [pyGet r "domain"] else []) ++
        truthyDomains B := by
  by_cases h : Value.truthy (pyGet r "domain") <;> simp [truthyDomains, h]

theorem mem_truthyDomains (r : VRec) (B : List VRec) (hr : r ∈ B)
    (ht : Value.truthy (pyGet r "domain") = true) :
    pyGet r "domain" ∈ truthyDomains B := by
  simp only [truthyDomains, List.mem_filter, List.mem_map]
  exact ⟨⟨r, hr, rfl⟩, ht⟩

theorem noDupBeq_extract : ∀ (xs : List Value) (d : Value) (ys : List Value),
    noDupBeq (xs ++ d :: ys) = true →
    ∀ x ∈ xs, Value.beq x d = false ∧ Value.beq d x = false
  | [], _, _, _, x, hx => by simp at hx
  | x0 :: xs', d, ys, h, x, hx => by
    simp only [List.cons_append, noDupBeq, Bool.and_eq_true, List.all_eq_true] at h
    rcases List.mem_cons.mp hx with rfl | hx'
    · have := h.1 d (by simp)
      simp only [Bool.and_eq_true, Bool.not_eq_true'] at this
      exact ⟨this.2, this.1⟩
    · exact noDupBeq_extract xs' d ys h.2 x hx'

/-- Invariant maintained over the merge loop: the prefix of the evolving
history keeps the originally-loaded domains in place, every appended record
carries the (truthy, originally-unseen) domain of a processed batch record,
and every processed record is fully absorbed by the evolving history. -/
structure MergeInv (H : List VRec) (done : List VRec) (hist : List VRec) : Prop where
  len_le : H.length ≤ hist.length
  prefix_dom : ∀ i, i < H.length → domAt hist i = domAt H i
  appended_dom : ∀ i, H.length ≤ i → i < hist.length →
    ∃ r ∈ done, Value.truthy (pyGet r "domain") = true ∧
      domAt hist i = some (pyGet r "domain") ∧
      lastDomainIdx H (pyGet r "domain") = none
  settled : ∀ r ∈ done, absorbs hist r

/-- A domain found in the loaded history is found at the same place in the
evolving history: the prefix positions carry identical domains and every
appended record carries a domain the loaded history does not know. -/
theorem lastDomainIdx_prefix_found (H : List VRec) (done : List VRec)
    (hist : List VRec) (hinv : MergeInv H done hist) (d : Value) (i : Nat)
    (hidx : lastDomainIdx H d = some i) :
    lastDomainIdx hist d = some i := by
  have hsplit : hist = hist.take H.length ++ hist.drop H.length :=
    (List.take_append_drop _ _).symm
  have hlen_take : (hist.take H.length).length = H.length := by
    have := hinv.len_le
    simp [List.length_take]
    omega
  have htake : lastDomainIdx (hist.take H.length) d = some i := by
    rw [lastDomainIdx_congr (hist.take H.length) H
      (by rw [hlen_take])
      (fun j => by
        by_cases hj : j < H.length
        · rw [domAt_take _ _ _ hj, hinv.prefix_dom j hj]
        · rw [domAt_none_of_ge _ _ (by rw [hlen_take]; omega),
            domAt_none_of_ge _ _ (by omega)]) d]
    exact hidx
  have hdrop : lastDomainIdx (hist.drop H.length) d = none := by
    apply lastDomainIdx_none_of_all
    intro j hj
    have hidx_j : domAt hist (H.length + j) = domAt (hist.drop H.length) j := by
      simp [domAt, List.getElem?_drop]
    obtain ⟨r', _, _, hdom, hnone⟩ :=
      hinv.appended_dom (H.length + j) (Nat.le_add_right _ _)
        (by simp [List.length_drop] at hj; omega)
    rw [← hidx_j, hdom]
    intro hcontra
    obtain rfl : pyGet r' "domain" = d := by simpa using hcontra
    rw [hnone] at hidx
    cases hidx
  conv_lhs => rw [hsplit]
  rw [lastDomainIdx_append, hdrop, htake]

theorem mergeOne_skip (orig : List VRec) (st : MergeState) (r : VRec) (now : String)
    (h : ¬Value.truthy (pyGet r "domain") = true) :
    mergeOne orig now st r = st := by
  simp [mergeOne, h]

theorem mergeOne_new (orig : List VRec) (st : MergeState) (r : VRec) (now : String)
    (h : Value.truthy (pyGet r "domain") = true)
    (hidx : lastDomainIdx orig (pyGet r "domain") = none) :
    mergeOne orig now st r =
      ⟨st.history ++ [dictSet r "first_seen" (.str now)],
       st.new_victims ++ [pyGet r "domain"], st.updated_victims⟩ := by
  simp [mergeOne, h, hidx]

theorem mergeOne_existing (orig : List VRec) (st : MergeState) (r : VRec)
    (now : String) (i : Nat) (h : Value.truthy (pyGet r "domain") = true)
    (hidx : lastDomainIdx orig (pyGet r "domain") = some i) :
    mergeOne orig now st r =
      ⟨st.history.set i (mergeExisting (st.history.getD i []) r),
       st.new_victims,
       if Value.beq (pyGet r "status") (pyGet (st.history.getD i []) "status") then
         st.updated_victims
       else st.updated_victims ++ [pyGet r "domain"]⟩ := by
  simp [mergeOne, h, hidx]

theorem mergeOne_step_inv (H : List VRec) (now : String) (done : List VRec)
    (st : MergeState) (r : VRec)
    (hkeys : (keysOf r).Nodup)
    (hdist : Value.truthy (pyGet r "domain") = true →
      ∀ r' ∈ done, Value.truthy (pyGet r' "domain") = true →
        Value.beq (pyGet r' "domain") (pyGet r "domain") = false ∧
        Value.beq (pyGet r "domain") (pyGet r' "domain") = false)
    (hinv : MergeInv H done st.history) :
    MergeInv H (done ++ [r]) (mergeOne H now st r).history := by
  by_cases htr : Value.truthy (pyGet r "domain") = true
  · cases hidx : lastDomainIdx H (pyGet r "domain") with
    | none =>
      rw [mergeOne_new _ _ _ _ htr hidx]
      have hrd : findEntry r "domain" = some (pyGet r "domain") :=
        findEntry_some_of_truthy r _ htr
      have hr2d : findEntry (dictSet r "first_seen" (.str now)) "domain" =
          some (pyGet r "domain") := by
        rw [findEntry_dictSet_ne _ _ _ _ (by decide), hrd]
      refine ⟨?_, ?_, ?_, ?_⟩
      · simp only [List.length_append, List.length_cons, List.length_nil]
        have := hinv.len_le
        omega
      · intro i hi
        rw [domAt_append_left _ _ _ (by have := hinv.len_le; omega)]
        exact hinv.prefix_dom i hi
      · intro i h1 h2
        simp only [List.length_append, List.length_cons, List.length_nil] at h2
        by_cases hlt : i < st.history.length
        · obtain ⟨r', hm, rest1, rest2, rest3⟩ := hinv.appended_dom i h1 hlt
          exact ⟨r', List.mem_append_left _ hm, rest1,
            by rw [domAt_append_left _ _ _ hlt]; exact rest2, rest3⟩
        · have hieq : i = st.history.length := by omega
          subst hieq
          refine ⟨r, List.mem_append_right _ (by simp), htr, ?_, hidx⟩
          have hq := domAt_append_right st.history [dictSet r "first_seen" (.str now)] 0
          rw [Nat.add_zero] at hq
          rw [hq]
          simp [domAt, hr2d]
      · intro rr hrr
        rcases List.mem_append.mp hrr with hm | hm
        · intro htr'
          obtain ⟨j, e2, hidx2, hget2, hstat2, hfl2⟩ := hinv.settled rr hm htr'
          have hbne : Value.beq (pyGet r "domain") (pyGet rr "domain") = false :=
            (hdist htr rr hm htr').2
          refine ⟨j, e2, ?_, ?_, hstat2, hfl2⟩
          · rw [lastDomainIdx_snoc_ne _ _ _ _ hr2d hbne]
            exact hidx2
          · rw [List.getElem?_append_left (lastDomainIdx_lt _ _ _ hidx2)]
            exact hget2
        · have hreq : r = rr := by symm; simpa using hm
          subst hreq
          intro _
          refine ⟨st.history.length, dictSet r "first_seen" (.str now), ?_, ?_, ?_, ?_⟩
          · exact lastDomainIdx_snoc_self _ _ _ hr2d
          · rw [List.getElem?_append_right (Nat.le_refl _)]
            simp
          · rw [pyGet, findEntry_dictSet_ne _ _ _ _ (by decide)]
            rfl
          · intro p hp hpne
            have hp1 : p.1 ≠ "first_seen" := fun hc => hpne (Or.inl hc)
            rw [findEntry_dictSet_ne _ _ _ _ hp1]
            exact findEntry_of_mem_nodup r p.1 p.2 hkeys hp
    | some i =>
      rw [mergeOne_existing _ _ _ _ i htr hidx]
      have hiH : i < H.length := lastDomainIdx_lt _ _ _ hidx
      have hiS : i < st.history.length := by have := hinv.len_le; omega
      have hget : st.history[i]? = some (st.history.getD i []) :=
        getElem?_eq_some_getD _ _ hiS
      set e := st.history.getD i [] with he
      set e' := mergeExisting e r with he'
      have hrd : findEntry r "domain" = some (pyGet r "domain") :=
        findEntry_some_of_truthy r _ htr
      have hdmem : ("domain", pyGet r "domain") ∈ r := findEntry_mem _ _ _ hrd
      have he'd : findEntry e' "domain" = some (pyGet r "domain") :=
        mergeExisting_mem e r _ _ hkeys hdmem (by decide)
      have hed : findEntry e "domain" = some (pyGet r "domain") := by
        have h1 : domAt st.history i = domAt H i := hinv.prefix_dom i hiH
        have h2 : domAt H i = some (pyGet r "domain") := lastDomainIdx_at _ _ _ hidx
        have h3 : domAt st.history i = findEntry e "domain" := by simp [domAt, hget]
        rw [← h3, h1, h2]
      have hdomAt_same : ∀ j, domAt (st.history.set i e') j = domAt st.history j := by
        intro j
        by_cases hij : i = j
        · subst hij
          rw [domAt_set_self _ _ _ hiS, he'd]
          simp [domAt, hget, hed]
        · exact domAt_set_ne _ _ _ _ hij
      have hlen_set : (st.history.set i e').length = st.history.length :=
        List.length_set ..
      have hldi_same : ∀ d0,
          lastDomainIdx (st.history.set i e') d0 = lastDomainIdx st.history d0 :=
        fun d0 => lastDomainIdx_congr _ _ hlen_set hdomAt_same d0
      refine ⟨?_, ?_, ?_, ?_⟩
      · rw [hlen_set]
        exact hinv.len_le
      · intro j hj
        rw [hdomAt_same j]
        exact hinv.prefix_dom j hj
      · intro j h1 h2
        rw [hlen_set] at h2
        obtain ⟨r', hm, ht', hdom, hnone⟩ := hinv.appended_dom j h1 h2
        exact ⟨r', List.mem_append_left _ hm, ht',
          by rw [hdomAt_same j]; exact hdom, hnone⟩
      · intro rr hrr
        rcases List.mem_append.mp hrr with hm | hm
        · intro htr'
          obtain ⟨j, e2, hidx2, hget2, hstat2, hfl2⟩ := hinv.settled rr hm htr'
          have hji : j ≠ i := by
            intro hji
            subst hji
            have hd' : domAt st.history j = some (pyGet rr "domain") :=
              lastDomainIdx_at _ _ _ hidx2
            have hd : domAt st.history j = findEntry e "domain" := by
              simp [domAt, hget]
            rw [hd, hed] at hd'
            have heq : pyGet r "domain" = pyGet rr "domain" := by simpa using hd'
            have hbne := (hdist htr rr hm htr').2
            rw [heq, Value.beq_refl] at hbne
            cases hbne
          refine ⟨j, e2, by rw [hldi_same]; exact hidx2, ?_, hstat2, hfl2⟩
          rw [List.getElem?_set_ne (fun hc => hji hc.symm)]
          exact hget2
        · have hreq : r = rr := by symm; simpa using hm
          subst hreq
          intro _
          refine ⟨i, e', ?_, ?_, ?_, ?_⟩
          · rw [hldi_same]
            exact lastDomainIdx_prefix_found H done st.history hinv _ i hidx
          · exact List.getElem?_set_eq_of_lt e' hiS
          · exact mergeExisting_status e r hkeys
          · intro p hp hpne
            exact mergeExisting_mem e r p.1 p.2 hkeys hp hpne
  · rw [mergeOne_skip _ _ _ _ htr]
    refine ⟨hinv.len_le, hinv.prefix_dom, ?_, ?_⟩
    · intro i h1 h2
      obtain ⟨r', hm, rest⟩ := hinv.appended_dom i h1 h2
      exact ⟨r', List.mem_append_left _ hm, rest⟩
    · intro rr hrr
      rcases List.mem_append.mp hrr with hm | hm
      · exact hinv.settled rr hm
      · have hreq : r = rr := by symm; simpa using hm
        subst hreq
        intro htr'
        exact absurd htr' htr

theorem merge_fold_inv (H : List VRec) (now : String) :
    ∀ (B done : List VRec) (st : MergeState),
      (∀ r ∈ B, (keysOf r).Nodup) →
      noDupBeq (truthyDomains done ++ truthyDomains B) = true →
      MergeInv H done st.history →
      MergeInv H (done ++ B) (B.foldl (mergeOne H now) st).history
  | [], done, st, _, _, hinv => by simpa using hinv
  | r :: B', done, st, hkeys, hdup, hinv => by
    rw [List.foldl_cons]
    have hstep : MergeInv H (done ++ [r]) (mergeOne H now st r).history := by
      apply mergeOne_step_inv H now done st r (hkeys r (List.mem_cons_self ..))
        (fun htr r' hm htr' => ?_) hinv
      have hmem : pyGet r' "domain" ∈ truthyDomains done :=
        mem_truthyDomains r' done hm htr'
      have hshape : truthyDomains done ++ truthyDomains (r :: B') =
          truthyDomains done ++ pyGet r "domain" :: truthyDomains B' := by
        rw [truthyDomains_cons, htr]
        simp
      rw [hshape] at hdup
      exact noDupBeq_extract _ _ _ hdup _ hmem
    have hkeys' : ∀ r' ∈ B', (keysOf r').Nodup :=
      fun r' h => hkeys r' (List.mem_cons_of_mem _ h)
    have hdup' : noDupBeq (truthyDomains (done ++ [r]) ++ truthyDomains B') = true := by
      rw [truthyDomains_append]
      by_cases htr : Value.truthy (pyGet r "domain") = true
      · have e1 : truthyDomains [r] = [pyGet r "domain"] := by
          simp [truthyDomains, htr]
        have e2 : truthyDomains (r :: B') =
            pyGet r "domain" :: truthyDomains B' := by
          rw [truthyDomains_cons, htr]
          simp
        rw [e2] at hdup
        rw [e1]
        simpa [List.append_assoc] using hdup
      · have e1 : truthyDomains [r] = [] := by
          simp [truthyDomains, Bool.eq_false_iff.mpr htr]
        have e2 : truthyDomains (r :: B') = truthyDomains B' := by
          rw [truthyDomains_cons, if_neg (by simpa using htr)]
          simp
        rw [e2] at hdup
        rw [e1]
        simpa using hdup
    have hrec := merge_fold_inv H now B' (done ++ [r]) (mergeOne H now st r)
      hkeys' hdup' hstep
    simpa [List.append_assoc] using hrec

theorem merge_absorbs_batch (H B : List VRec) (now : String)
    (hkeys : ∀ r ∈ B, (keysOf r).Nodup)
    (hdom : noDupBeq (truthyDomains B) = true) :
    ∀ r ∈ B, absorbs (update_victim_database B H now).history r := by
  have hinv0 : MergeInv H [] (⟨H, [], []⟩ : MergeState).history :=
    ⟨Nat.le_refl _, fun _ _ => rfl,
     fun i h1 h2 => absurd h2 (by simpa using Nat.not_lt.mpr h1),
     fun r hm => absurd hm (List.not_mem_nil r)⟩
  have hfin := merge_fold_inv H now B [] ⟨H, [], []⟩ hkeys
    (by simpa [truthyDomains] using hdom) hinv0
  intro r hr
  exact hfin.settled r (by simpa using hr)

/-! ## Claims about the incremental record store (C2, C3, C4) -/

/-- C2, counterexample: merge idempotence fails for a batch containing two
records with the same domain.  The domain lookup is built before the loop, so
both records of the first application are appended as new; on the second
application they both resolve to the last appended copy and their differing
statuses make the merge append status-history entries and report the domain
as updated — the history changes and the updated set is non-empty. -/
theorem claim_C2_counterexample :
    ¬((update_victim_database
          [[("domain", .str "a.example"), ("status", .str "COUNTDOWN")],
           [("domain", .str "a.example"), ("status", .str "PUBLISHED")]]
          (update_victim_database
            [[("domain", .str "a.example"), ("status", .str "COUNTDOWN")],
             [("domain", .str "a.example"), ("status", .str "PUBLISHED")]]
            [] "t1").history "t2").history =
        (update_victim_database
          [[("domain", .str "a.example"), ("status", .str "COUNTDOWN")],
           [("domain", .str "a.example"), ("status", .str "PUBLISHED")]]
          [] "t1").history ∧
      (update_victim_database
          [[("domain", .str "a.example"), ("status", .str "COUNTDOWN")],
           [("domain", .str "a.example"), ("status", .str "PUBLISHED")]]
          (update_victim_database
            [[("domain", .str "a.example"), ("status", .str "COUNTDOWN")],
             [("domain", .str "a.example"), ("status", .str "PUBLISHED")]]
            [] "t1").history "t2").updated_victims = []) := by
  intro h
  have e2 : (update_victim_database
      [[("domain", .str "a.example"), ("status", .str "COUNTDOWN")],
       [("domain", .str "a.example"), ("status", .str "PUBLISHED")]]
      (update_victim_database
        [[("domain", .str "a.example"), ("status", .str "COUNTDOWN")],
         [("domain", .str "a.example"), ("status", .str "PUBLISHED")]]
        [] "t1").history "t2").updated_victims =
      [.str "a.example", .str "a.example"] := rfl
  rw [h.2] at e2
  cases e2

/-- C2 (amended): merge idempotence holds for every history and every batch
whose records carry pairwise-distinct truthy domains (Python dicts, so each
record's keys are distinct; stored `status_history` fields are lists).
Re-merging the identical batch returns the identical history, an empty
new-domain report and an empty updated-domain report — in particular no
victim's `status_history` gains an entry from the second application. -/
theorem claim_C2_amended (H B : List VRec) (t1 t2 : String)
    (_hwf : wfHistory H = true)
    (hkeys : ∀ r ∈ B, (keysOf r).Nodup)
    (hdom : noDupBeq (truthyDomains B) = true) :
    update_victim_database B (update_victim_database B H t1).history t2 =
      ⟨(update_victim_database B H t1).history, [], []⟩ :=
  foldl_absorbed _ t2 B [] [] (merge_absorbs_batch H B t1 hkeys hdom)

/-- C2, witness: a concrete two-record batch with distinct domains merged
twice; the second merge returns the unchanged history and empty reports. -/
theorem claim_C2_witness :
    update_victim_database
        [[("domain", .str "a.example"), ("status", .str "PUBLISHED")],
         [("domain", .str "c.example"), ("status", .str "COUNTDOWN")]]
        (update_victim_database
          [[("domain", .str "a.example"), ("status", .str "PUBLISHED")],
           [("domain", .str "c.example"), ("status", .str "COUNTDOWN")]]
          [[("domain", .str "b.example"), ("status", .str "PUBLISHED")]] "t1").history
        "t2" =
      ⟨(update_victim_database
          [[("domain", .str "a.example"), ("status", .str "PUBLISHED")],
           [("domain", .str "c.example"), ("status", .str "COUNTDOWN")]]
          [[("domain", .str "b.example"), ("status", .str "PUBLISHED")]] "t1").history,
       [], []⟩ :=
  claim_C2_amended
    [[("domain", .str "b.example"), ("status", .str "PUBLISHED")]]
    [[("domain", .str "a.example"), ("status", .str "PUBLISHED")],
     [("domain", .str "c.example"), ("status", .str "COUNTDOWN")]]
    "t1" "t2" (by decide) (by decide) (by decide)

/-- C4: new/updated classification of the merge loop.  For any merge, an
incoming record (with a truthy domain `d`) processed by the loop body:
(i) when `d` is absent from the loaded history, is stamped with `first_seen`
set to the current time, appended to the history, and its domain reported as
new; (ii) when `d` resolves to a stored record whose status differs from the
incoming one, causes exactly one entry `{old status, old updated-timestamp}`
to be appended to that victim's `status_history` and its domain to be
reported as updated; (iii) when `d` resolves to a stored record with an
identical status, is reported in neither set. -/
theorem claim_C4_classification (H : List VRec) (now : String) (st : MergeState)
    (r : VRec) (d : Value) (hd : d = pyGet r "domain")
    (htr : Value.truthy d = true) :
    (lastDomainIdx H d = none →
      mergeOne H now st r =
        ⟨st.history ++ [dictSet r "first_seen" (.str now)],
         st.new_victims ++ [d], st.updated_victims⟩) ∧
    (∀ i e xs, lastDomainIdx H d = some i → st.history.getD i [] = e →
      Value.beq (pyGet r "status") (pyGet e "status") = false →
      pyGetD e "status_history" (.list []) = .list xs →
      mergeOne H now st r =
        ⟨st.history.set i (mergeExisting e r), st.new_victims,
         st.updated_victims ++ [d]⟩ ∧
      findEntry (mergeExisting e r) "status_history" =
        some (.list (xs ++ [statusEntry e]))) ∧
    (∀ i e, lastDomainIdx H d = some i → st.history.getD i [] = e →
      Value.beq (pyGet r "status") (pyGet e "status") = true →
      mergeOne H now st r =
        ⟨st.history.set i (mergeExisting e r), st.new_victims,
         st.updated_victims⟩) := by
  subst hd
  refine ⟨?_, ?_, ?_⟩
  · intro hidx
    exact mergeOne_new H st r now htr hidx
  · intro i e xs hidx hgetD hne hsh
    subst hgetD
    constructor
    · rw [mergeOne_existing H st r now i htr hidx, hne]
      simp
    · rw [mergeExisting_status_history, if_neg (by simp only [hne]; simp), hsh, shAppend]
  · intro i e hidx hgetD heq
    subst hgetD
    rw [mergeOne_existing H st r now i htr hidx, heq]
    simp

/-- C4, witness: against a one-record history, a new domain is appended and
reported new, and a status change appends exactly the
`{old status, old updated}` entry and reports the domain updated. -/
theorem claim_C4_witness :
    (mergeOne [[("domain", .str "x.example"), ("status", .str "A"),
                ("updated", .str "T0")]] "now"
        ⟨[[("domain", .str "x.example"), ("status", .str "A"),
           ("updated", .str "T0")]], [], []⟩
        [("domain", .str "y.example"), ("status", .str "B")] =
      ⟨[[("domain", .str "x.example"), ("status", .str "A"), ("updated", .str "T0")],
        [("domain", .str "y.example"), ("status", .str "B"), ("first_seen", .str "now")]],
       [.str "y.example"], []⟩) ∧
    (mergeOne [[("domain", .str "x.example"), ("status", .str "A"),
                ("updated", .str "T0")]] "now"
        ⟨[[("domain", .str "x.example"), ("status", .str "A"),
           ("updated", .str "T0")]], [], []⟩
        [("domain", .str "x.example"), ("status", .str "B")] =
      ⟨[[("domain", .str "x.example"), ("status", .str "B"), ("updated", .str "T0"),
         ("status_history",
          .list [.dict [("status", .str "A"), ("timestamp", .str "T0")]])]],
       [], [.str "x.example"]⟩) := by
  constructor
  · exact (claim_C4_classification
      [[("domain", .str "x.example"), ("status", .str "A"), ("updated", .str "T0")]]
      "now"
      ⟨[[("domain", .str "x.example"), ("status", .str "A"), ("updated", .str "T0")]],
       [], []⟩
      [("domain", .str "y.example"), ("status", .str "B")]
      (.str "y.example") rfl (by decide)).1 rfl
  · exact ((claim_C4_classification
      [[("domain", .str "x.example"), ("status", .str "A"), ("updated", .str "T0")]]
      "now"
      ⟨[[("domain", .str "x.example"), ("status", .str "A"), ("updated", .str "T0")]],
       [], []⟩
      [("domain", .str "x.example"), ("status", .str "B")]
      (.str "x.example") rfl (by decide)).2.1 0
      [("domain", .str "x.example"), ("status", .str "A"), ("updated", .str "T0")]
      [] rfl rfl rfl rfl).1

/-- C3, counterexample: the claim's frame half fails for `status`.  Merging
an incoming record that omits `status` over a stored record with status
"PUBLISHED" rewrites the stored status to `None` (the incoming `.get` of the
absent key), instead of keeping the previously stored value. -/
theorem claim_C3_counterexample :
    findEntry
        (mergeExisting
          [("domain", .str "a.example"), ("status", .str "PUBLISHED"),
           ("deadline", .str "2025-01-01")]
          [("domain", .str "a.example")])
        "status" ≠ some (.str "PUBLISHED") := by
  intro h
  have e1 : findEntry
      (mergeExisting
        [("domain", .str "a.example"), ("status", .str "PUBLISHED"),
         ("deadline", .str "2025-01-01")]
        [("domain", .str "a.example")])
      "status" = some Value.null := rfl
  rw [e1] at h
  injection h with h2
  exact Value.noConfusion h2

/-- C3 (amended): field-wise merge frame property.  When merging an incoming
record for a domain already in history: the stored `domain` is unchanged;
`first_seen` is never rewritten; every field present in the incoming record
other than `first_seen` and `status_history` overwrites the stored field;
every stored field whose key is absent from the incoming record — other than
`status`, which is always rewritten to the incoming record's status lookup
(`None` when absent), and `status_history` — keeps its previously stored
value (e.g. a stored deadline survives a batch that omits deadline). -/
theorem claim_C3_frame (e r : VRec) (d : Value)
    (hkeys : (keysOf r).Nodup)
    (hed : findEntry e "domain" = some d)
    (hrd : pyGet r "domain" = d)
    (htr : Value.truthy d = true) :
    findEntry (mergeExisting e r) "domain" = findEntry e "domain" ∧
    findEntry (mergeExisting e r) "first_seen" = findEntry e "first_seen" ∧
    (∀ p ∈ r, ¬(p.1 = "first_seen" ∨ p.1 = "status_history") →
      findEntry (mergeExisting e r) p.1 = some p.2) ∧
    (∀ k, k ∉ keysOf r → k ≠ "status" → k ≠ "status_history" →
      findEntry (mergeExisting e r) k = findEntry e k) ∧
    pyGet (mergeExisting e r) "status" = pyGet r "status" := by
  refine ⟨?_, mergeExisting_first_seen e r,
    fun p hp hpne => mergeExisting_mem e r p.1 p.2 hkeys hp hpne,
    fun k hk h1 h2 => mergeExisting_notMem e r k hk h1 h2,
    mergeExisting_status e r hkeys⟩
  have hrd' : findEntry r "domain" = some d := by
    rw [← hrd]
    exact findEntry_some_of_truthy r "domain" (by rwa [hrd])
  rw [hed, mergeExisting_mem e r "domain" d hkeys (findEntry_mem _ _ _ hrd')
    (by decide)]

/-- C3, witness: at a concrete stored record and incoming record, the stored
deadline survives a batch omitting it, the incoming description overwrites,
and domain and first_seen are unchanged. -/
theorem claim_C3_witness :
    findEntry
        (mergeExisting
          [("domain", .str "a.example"), ("status", .str "PUBLISHED"),
           ("first_seen", .str "T0"), ("deadline", .str "2025-01-01")]
          [("domain", .str "a.example"), ("status", .str "PUBLISHED"),
           ("views", .int 7)])
        "deadline" = some (.str "2025-01-01") ∧
    findEntry
        (mergeExisting
          [("domain", .str "a.example"), ("status", .str "PUBLISHED"),
           ("first_seen", .str "T0"), ("deadline", .str "2025-01-01")]
          [("domain", .str "a.example"), ("status", .str "PUBLISHED"),
           ("views", .int 7)])
        "views" = some (.int 7) := by
  constructor
  · exact (claim_C3_frame
      [("domain", .str "a.example"), ("status", .str "PUBLISHED"),
       ("first_seen", .str "T0"), ("deadline", .str "2025-01-01")]
      [("domain", .str "a.example"), ("status", .str "PUBLISHED"),
       ("views", .int 7)]
      (.str "a.example") (by decide) rfl rfl (by decide)).2.2.2.1
      "deadline" (by decide) (by decide) (by decide)
  · exact (claim_C3_frame
      [("domain", .str "a.example"), ("status", .str "PUBLISHED"),
       ("first_seen", .str "T0"), ("deadline", .str "2025-01-01")]
      [("domain", .str "a.example"), ("status", .str "PUBLISHED"),
       ("views", .int 7)]
      (.str "a.example") (by decide) rfl rfl (by decide)).2.2.1
      ("views", .int 7) (by simp) (by decide)

/-! ## The mirror-reliability selector

`get_working_mirrors()` in `lockbit_tracker.py` (lines 84-98).  It reads the
persisted ledger `working_mirrors.json` (a JSON object mapping mirror
address to statistics) and returns
`[m for m, _ in sorted(mirrors_data.items(), key=success_rate, reverse=True)]`;
if the file is missing or unparsable it returns the hard-coded default list
`LOCKBIT_MIRRORS`.  Python's `sorted` is a stable sort, and `reverse=True`
keeps equal-key elements in their original relative order, so the sort is
modelled as the stable descending insertion sort `sortByRateDesc`.  The
ledger is modelled as the insertion-ordered list of (address, success_rate)
pairs, rates as exact rationals; `none` stands for a missing/corrupt file.
-/

def LOCKBIT_MIRRORS : List String :=
  ["lockbit3753ekiocyo5epmpy6klmejchjtzddoekjlnt6mu3qh4de2id.onion",
   "lockbit3g3ohd3katajf6zaehxz4h4cnhmz5t735zpltywhwpc6oy3id.onion",
   "lockbit3olp7oetlc4tl5zydnoluphh7fvdt5oa6arcp2757r7xkutid.onion",
   "lockbit435xk3ki62yun7z5nhwz6jyjdp2c64j5vge536if2eny3gtid.onion",
   "lockbit4lahhluquhoka3t4spqym2m3dhe66d6lr337glmnlgg2nndad.onion",
   "lockbit6knrauo3qafoksvl742vieqbujxw7rd6ofzdtapjb4rrawqad.onion",
   "lockbit7ouvrsdgtojeoj5hvu6bljqtghitekwpdy3b6y62ixtsu5jqd.onion"]

/-- A persisted mirror ledger: address and success_rate, in file order. -/
abbrev MirrorLedger := List (String × ℚ)

/-- Stable descending insertion: the new element goes before the first entry
whose rate is not strictly greater, i.e. after all strictly-greater rates and
before all equal rates coming later in the original order. -/
def insertDesc (x : String × ℚ) : MirrorLedger → MirrorLedger
  | [] => [x]
  | y :: ys => if y.2 > x.2 then y :: insertDesc x ys else x :: y :: ys

/-- `sorted(items, key=lambda x: x[1]['success_rate'], reverse=True)`:
the stable descending sort by success rate. -/
def sortByRateDesc : MirrorLedger → MirrorLedger
  | [] => []
  | x :: xs => insertDesc x (sortByRateDesc xs)

/-- `get_working_mirrors()`: the ledger's addresses sorted by descending
success rate (stable), or the default list when no ledger is readable. -/
def get_working_mirrors : Option MirrorLedger → List String
  | none => LOCKBIT_MIRRORS
  | some items => (sortByRateDesc items).map Prod.fst

theorem insertDesc_perm (x : String × ℚ) : ∀ l : MirrorLedger,
    (insertDesc x l).Perm (x :: l)
  | [] => List.Perm.refl _
  | y :: ys => by
    by_cases h : y.2 > x.2
    · simp only [insertDesc, if_pos h]
      exact ((insertDesc_perm x ys).cons y).trans (List.Perm.swap x y ys)
    · simp only [insertDesc, if_neg h]
      exact List.Perm.refl _

theorem sortByRateDesc_perm : ∀ l : MirrorLedger, (sortByRateDesc l).Perm l
  | [] => List.Perm.refl _
  | x :: xs =>
    (insertDesc_perm x (sortByRateDesc xs)).trans ((sortByRateDesc_perm xs).cons x)

theorem insertDesc_sorted (x : String × ℚ) : ∀ l : MirrorLedger,
    List.Pairwise (fun a b : String × ℚ => a.2 ≥ b.2) l →
    List.Pairwise (fun a b : String × ℚ => a.2 ≥ b.2) (insertDesc x l)
  | [], _ => List.pairwise_singleton _ _
  | y :: ys, h => by
    rw [List.pairwise_cons] at h
    by_cases hc : y.2 > x.2
    · simp only [insertDesc, if_pos hc]
      rw [List.pairwise_cons]
      constructor
      · intro z hz
        have hz' : z ∈ x :: ys := (insertDesc_perm x ys).mem_iff.mp hz
        rcases List.mem_cons.mp hz' with rfl | hmem
        · exact le_of_lt hc
        · exact h.1 z hmem
      · exact insertDesc_sorted x ys h.2
    · simp only [insertDesc, if_neg hc]
      rw [List.pairwise_cons]
      constructor
      · intro z hz
        rcases List.mem_cons.mp hz with rfl | hmem
        · exact le_of_not_lt hc
        · exact le_trans (h.1 z hmem) (le_of_not_lt hc)
      · rw [List.pairwise_cons]
        exact h
    
theorem sortByRateDesc_sorted : ∀ l : MirrorLedger,
    List.Pairwise (fun a b : String × ℚ => a.2 ≥ b.2) (sortByRateDesc l)
  | [] => List.Pairwise.nil
  | x :: xs => insertDesc_sorted x (sortByRateDesc xs) (sortByRateDesc_sorted xs)

theorem insertDesc_filter_rate (x : String × ℚ) (q : ℚ) : ∀ l : MirrorLedger,
    (insertDesc x l).filter (fun p => p.2 == q) =
      if x.2 == q then x :: l.filter (fun p => p.2 == q)
      else l.filter (fun p => p.2 == q)
  | [] => by
    by_cases h : x.2 == q <;> simp [insertDesc, List.filter, h]
  | y :: ys => by
    by_cases hc : y.2 > x.2
    · by_cases hx : x.2 == q
      · have hxq : x.2 = q := by simpa using hx
        have hy : (y.2 == q) = false := by
          simp only [beq_eq_false_iff_ne, ne_eq]
          rw [← hxq]
          exact ne_of_gt hc
        simp [insertDesc, if_pos hc, List.filter_cons, hy, hx,
          insertDesc_filter_rate x q ys]
      · simp [insertDesc, if_pos hc, List.filter_cons, hx,
          insertDesc_filter_rate x q ys]
    · simp [insertDesc, if_neg hc, List.filter_cons]

theorem sortByRateDesc_filter_rate (q : ℚ) : ∀ l : MirrorLedger,
    (sortByRateDesc l).filter (fun p => p.2 == q) =
      l.filter (fun p => p.2 == q)
  | [] => rfl
  | x :: xs => by
    simp only [sortByRateDesc]
    rw [insertDesc_filter_rate x q (sortByRateDesc xs),
      sortByRateDesc_filter_rate q xs]
    by_cases hx : x.2 == q
    · rw [if_pos hx]
      simp [List.filter_cons, hx]
    · rw [if_neg hx]
      simp [List.filter_cons, hx]

/-- C1, counterexample: `get_working_mirrors` does not return the union of
the ledger and the default list — a readable ledger containing one unlisted
address yields exactly that address, omitting every hard-coded default; and
ties among equal rates follow the ledger's own order, not the default-list
position (two zero-rated default mirrors listed in reverse default order
come back in ledger order). -/
theorem claim_C1_counterexample :
    "lockbit3753ekiocyo5epmpy6klmejchjtzddoekjlnt6mu3qh4de2id.onion" ∈
      LOCKBIT_MIRRORS ∧
    get_working_mirrors (some [("unlisted-mirror.onion", 1)]) =
      ["unlisted-mirror.onion"] ∧
    "lockbit3753ekiocyo5epmpy6klmejchjtzddoekjlnt6mu3qh4de2id.onion" ∉
      get_working_mirrors (some [("unlisted-mirror.onion", 1)]) ∧
    get_working_mirrors
        (some [("lockbit3g3ohd3katajf6zaehxz4h4cnhmz5t735zpltywhwpc6oy3id.onion", 0),
               ("lockbit3753ekiocyo5epmpy6klmejchjtzddoekjlnt6mu3qh4de2id.onion", 0)]) =
      ["lockbit3g3ohd3katajf6zaehxz4h4cnhmz5t735zpltywhwpc6oy3id.onion",
       "lockbit3753ekiocyo5epmpy6klmejchjtzddoekjlnt6mu3qh4de2id.onion"] := by
  refine ⟨by decide, rfl, by decide, rfl⟩

/-- C1 (amended): when the ledger file is readable, `get_working_mirrors`
returns exactly the ledger's addresses (not the union with the default
list), sorted by descending success_rate with ties kept in ledger order
(stable sort); when no ledger is readable it returns the hard-coded default
list; for the ledger {A: 0.8, B: 0.2, C: untried (rate 0)} the returned
order is A, B, C. -/
theorem claim_C1_ordering (L : MirrorLedger) :
    (get_working_mirrors (some L)).Perm (L.map Prod.fst) ∧
    List.Pairwise (fun a b : String × ℚ => a.2 ≥ b.2) (sortByRateDesc L) ∧
    (∀ q : ℚ, (sortByRateDesc L).filter (fun p => p.2 == q) =
      L.filter (fun p => p.2 == q)) ∧
    get_working_mirrors none = LOCKBIT_MIRRORS ∧
    get_working_mirrors (some [("A", 0.8), ("B", 0.2), ("C", 0)]) =
      ["A", "B", "C"] := by
  refine ⟨(sortByRateDesc_perm L).map Prod.fst, sortByRateDesc_sorted L,
    fun q => sortByRateDesc_filter_rate q L, rfl,
    by norm_num [get_working_mirrors, sortByRateDesc, insertDesc]⟩

/-! ## Python string and regex primitives

Executable models of the string operations and regular expressions used by
`parse_structured_description` (`core/database.py`, lines 88-174).  Python
`\s` is the ASCII whitespace class on these inputs; `str.strip`, `str.lower`
and substring `in` are modelled character-exactly.  Each regular expression
of the source is compiled by hand into a deterministic scanner; a comment at
each scanner justifies why greedy matching without backtracking computes the
same match set (the relevant character classes are pairwise disjoint).
-/

/-- The double-quote character. -/
def quoteChar : Char := Char.ofNat 34

/-- The backslash character. -/
def backslashChar : Char := Char.ofNat 92

/-- Python `\s` (ASCII): space, tab, newline, carriage return, form feed,
vertical tab. -/
def pyIsSpace (c : Char) : Bool :=
  c = ' ' || c = Char.ofNat 9 || c = Char.ofNat 10 || c = Char.ofNat 13 ||
  c = Char.ofNat 12 || c = Char.ofNat 11

/-- Python `str.strip()`. -/
def pyStrip (s : String) : String :=
  String.mk (((s.data.dropWhile pyIsSpace).reverse.dropWhile pyIsSpace).reverse)

/-- Python `str.lower()` (ASCII). -/
def lowerStr (s : String) : String := String.mk (s.data.map Char.toLower)

/-- Python `str.upper()` (ASCII). -/
def upperStr (s : String) : String := String.mk (s.data.map Char.toUpper)

/-- Substring containment on character lists. -/
def containsSub (needle : List Char) : List Char → Bool
  | [] => needle.isPrefixOf []
  | c :: t => needle.isPrefixOf (c :: t) || containsSub needle t

/-- Python `needle in hay`. -/
def strHas (hay needle : String) : Bool := containsSub needle.data hay.data

/-- `[^\s<>"]`: the URL-tail class of `extract_url`/`extract_onion_url`. -/
def urlChar (c : Char) : Bool :=
  !(pyIsSpace c || c = '<' || c = '>' || c = quoteChar)

/-- `[a-zA-Z0-9]`. -/
def asciiAlnum (c : Char) : Bool :=
  (Char.ofNat 97 ≤ c && c ≤ Char.ofNat 122) ||
  (Char.ofNat 65 ≤ c && c ≤ Char.ofNat 90) || c.isDigit

/-- One attempt of `https?://[^\s<>"]+` at the head of `cs` (the second
alternative `http://[^\s<>"]+` of the source regex is subsumed by the
first).  Greedy and deterministic: the optional `s` is decided by the
literal `://` that must follow, and nothing follows the final `+`.
Returns the match and the number of characters consumed. -/
def tryUrlAt (cs : List Char) : Option (String × Nat) :=
  if "https://".data.isPrefixOf cs then
    let run := (cs.drop 8).takeWhile urlChar
    if run.isEmpty then none
    else some (String.mk ("https://".data ++ run), 8 + run.length)
  else if "http://".data.isPrefixOf cs then
    let run := (cs.drop 7).takeWhile urlChar
    if run.isEmpty then none
    else some (String.mk ("http://".data ++ run), 7 + run.length)
  else none

/-- One attempt of `http://[a-zA-Z0-9]{16,56}\.onion[^\s<>"]*` at the head
of `cs`.  The host class is disjoint from `.`, so the bounded greedy
quantifier can only succeed on the full alphanumeric run; a run longer than
56 characters leaves an alphanumeric character (never `.`) after every
admissible host length, so it never matches. -/
def tryOnionAt (cs : List Char) : Option (String × Nat) :=
  if "http://".data.isPrefixOf cs then
    let host := (cs.drop 7).takeWhile asciiAlnum
    if 16 ≤ host.length ∧ host.length ≤ 56 then
      let after := cs.drop (7 + host.length)
      if ".onion".data.isPrefixOf after then
        let tail := (after.drop 6).takeWhile urlChar
        some (String.mk ("http://".data ++ host ++ ".onion".data ++ tail),
          7 + host.length + 6 + tail.length)
      else none
    else none
  else none

/-- `re.findall` driver: scan left to right, emitting non-overlapping
matches and restarting right after each match.  Fuelled by the input length
(every step consumes at least one character). -/
def scanAux (tryAt : List Char → Option (String × Nat)) :
    Nat → List Char → List String
  | 0, _ => []
  | _ + 1, [] => []
  | fuel + 1, c :: rest =>
    match tryAt (c :: rest) with
    | some (m, n) => m :: scanAux tryAt fuel ((c :: rest).drop n)
    | none => scanAux tryAt fuel rest

/-- `re.findall(r'https?://[^\s<>"]+|http://[^\s<>"]+', line)`. -/
def scanUrls (cs : List Char) : List String := scanAux tryUrlAt cs.length cs

/-- `re.findall(r'http://[a-zA-Z0-9]{16,56}\.onion[^\s<>"]*', line)`. -/
def scanOnion (cs : List Char) : List String := scanAux tryOnionAt cs.length cs

/-- `re.search(r'"([^"]+)"', line)`: the first non-empty double-quoted
substring. -/
def quotedGroup : List Char → Option String
  | [] => none
  | c :: rest =>
    if c = quoteChar then
      let run := rest.takeWhile (fun d => d ≠ quoteChar)
      match rest.drop run.length with
      | _ :: _ => if run.isEmpty then quotedGroup rest else some (String.mk run)
      | [] => quotedGroup rest
    else quotedGroup rest

/-! ### A tiny matcher for the labelled-field regular expressions -/

/-- Tokens of the label patterns: case-insensitive literals, `\s*`, `\s+`
and an optional single character. -/
inductive Tok where
  | lit (s : String)
  | ws0
  | ws1
  | optChar (c : Char)

/-- Case-insensitive literal prefix match, returning the remainder. -/
def litPrefix : List Char → List Char → Option (List Char)
  | [], cs => some cs
  | _ :: _, [] => none
  | l :: ls, c :: cs => if l.toLower = c.toLower then litPrefix ls cs else none

/-- Match a token sequence at the head of `cs` and return the remainder.
Deterministic for the source's patterns: every `\s*`/`\s+` is followed by a
literal starting with a non-space character, and every optional character is
followed by a literal starting with a different character, so greedy
consumption never needs backtracking. -/
def matchToks : List Tok → List Char → Option (List Char)
  | [], cs => some cs
  | .lit s :: ts, cs =>
    match litPrefix s.data cs with
    | some cs' => matchToks ts cs'
    | none => none
  | .ws0 :: ts, cs => matchToks ts (cs.dropWhile pyIsSpace)
  | .ws1 :: ts, cs =>
    if pyIsSpace (cs.headD 'x') then matchToks ts (cs.dropWhile pyIsSpace)
    else none
  | .optChar c :: ts, cs =>
    match cs with
    | d :: cs' => if d = c then matchToks ts cs' else matchToks ts (d :: cs')
    | [] => matchToks ts []

/-- The trailing `\s*([^\n]+)` of the contact-label patterns, applied to a
single line (which contains no newline).  `[^\n]` also matches spaces, so
when only whitespace remains the greedy `\s*` backtracks one character and
the group captures the final space; the group is empty-impossible. -/
def capRestAfterWs (rest : List Char) : Option String :=
  if rest.isEmpty then none
  else
    let ws := rest.takeWhile pyIsSpace
    if ws.length = rest.length then some (String.mk (rest.drop (ws.length - 1)))
    else some (String.mk (rest.drop ws.length))

/-- The capture `([0-9.]+\s*[KMGT]B)` of the data-volume patterns
(case-insensitive).  The digit/dot run, the whitespace run and the unit
letter are pairwise disjoint classes, so greedy matching is exact. -/
def capSize (rest : List Char) : Option String :=
  let digits := rest.takeWhile (fun c => c.isDigit || c = '.')
  if digits.isEmpty then none
  else
    let r1 := rest.drop digits.length
    let ws := r1.takeWhile pyIsSpace
    let r2 := r1.drop ws.length
    match r2 with
    | u :: b :: _ =>
      if (u.toLower = 'k' || u.toLower = 'm' || u.toLower = 'g' ||
          u.toLower = 't') && b.toLower = 'b' then
        some (String.mk (digits ++ ws ++ [u, b]))
      else none
    | _ => none

/-- `re.search(pattern, line, re.IGNORECASE)`: try the label prefix and the
capture at every start position, left to right. -/
def searchPat (pre : List Tok) (cap : List Char → Option String) :
    List Char → Option String
  | [] =>
    match matchToks pre [] with
    | some rest => cap rest
    | none => none
  | c :: t =>
    match matchToks pre (c :: t) with
    | some rest =>
      match cap rest with
      | some g => some g
      | none => searchPat pre cap t
    | none => searchPat pre cap t

/-- First line of the text (in order) on which the pattern matches. -/
def searchLines (pre : List Tok) (cap : List Char → Option String) :
    List String → Option String
  | [] => none
  | l :: ls => searchPat pre cap l.data <|> searchLines pre cap ls

/-! ## The free-text field recoverer

`parse_structured_description(text)` in `core/database.py` (lines 88-174).
-/

/-- Python `text.split('\\n')`: split on the newline character, keeping
empty segments (structural, so that it evaluates inside the kernel). -/
def splitChar (sep : Char) : List Char → List (List Char)
  | [] => [[]]
  | c :: t =>
    if c = sep then [] :: splitChar sep t
    else
      match splitChar sep t with
      | h :: rest => (c :: h) :: rest
      | [] => [[c]]

/-- Python `text.split('\\n')` on strings. -/
def splitLines (s : String) : List String := (splitChar (Char.ofNat 10) s.data).map String.mk

/-- Python `sep.join(parts)`. -/
def joinWith (sep : String) : List String → String
  | [] => ""
  | [x] => x
  | x :: xs => x ++ sep ++ joinWith sep xs

/-- Result of `parse_structured_description`: the initialized fields of the
`info` dict.  (On falsy input the source returns a bare `{}`; every consumer
reads the fields with `.get`, under which the bare dict and these falsy
defaults are indistinguishable.) -/
structure DescInfo where
  company_name : String := ""
  description : String := ""
  contact : List (String × String) := []
  data_size : String := ""
  file_links : List String := []
deriving DecidableEq

/-- `r'web\s*site\s*:\s*([^\n]+)'` label part. -/
def tokWebsite1 : List Tok := [.lit "web", .ws0, .lit "site", .ws0, .lit ":"]

/-- `r'site\s*:\s*([^\n]+)'` label part. -/
def tokWebsite2 : List Tok := [.lit "site", .ws0, .lit ":"]

/-- `r'e-?mail\s*:\s*([^\n]+)'` label part. -/
def tokEmail1 : List Tok := [.lit "e", .optChar '-', .lit "mail", .ws0, .lit ":"]

/-- `r'contact\s*:\s*([^\n]+)'` label part. -/
def tokEmail2 : List Tok := [.lit "contact", .ws0, .lit ":"]

/-- `r'phone\s*:\s*([^\n]+)'` label part. -/
def tokPhone1 : List Tok := [.lit "phone", .ws0, .lit ":"]

/-- `r'tel\s*:\s*([^\n]+)'` label part. -/
def tokPhone2 : List Tok := [.lit "tel", .ws0, .lit ":"]

/-- `r'headquarters\s*:\s*([^\n]+)'` label part. -/
def tokAddress1 : List Tok := [.lit "headquarters", .ws0, .lit ":"]

/-- `r'address\s*:\s*([^\n]+)'` label part. -/
def tokAddress2 : List Tok := [.lit "address", .ws0, .lit ":"]

/-- `r'data\s+volume\s*:?\s*(...)'` label part. -/
def tokSize1 : List Tok := [.lit "data", .ws1, .lit "volume", .ws0, .optChar ':', .ws0]

/-- `r'total\s+data\s+volume\s*:?\s*(...)'` label part. -/
def tokSize2 : List Tok :=
  [.lit "total", .ws1, .lit "data", .ws1, .lit "volume", .ws0, .optChar ':', .ws0]

/-- The first matching pattern of the ordered list wins for a contact field
(the source breaks out of the pattern loop once the field is present);
the matched group is stripped. -/
def contactField (pats : List (List Tok)) (lines : List String) : Option String :=
  pats.foldr (fun p acc => searchLines p capRestAfterWs lines <|> acc) none

/-- Company name: the first line announcing the new company posting, when
the next line exists and is non-blank, contributes its first quoted
substring. -/
def companyNameOf (lines : List String) : String :=
  match lines.findIdx? (fun l => strHas (lowerStr l) "we are posting here the new company") with
  | some i =>
    if i + 1 < lines.length ∧ pyStrip (lines.getD (i + 1) "") ≠ "" then
      match quotedGroup (lines.getD i "").data with
      | some q => q
      | none => ""
    else ""
  | none => ""

/-- A line at which the description-collection loop stops. -/
def isStopLine (l : String) : Bool :=
  strHas (lowerStr l) "headquarters:" || strHas (lowerStr l) "web site:" ||
  strHas (lowerStr l) "e-mail:" || strHas (lowerStr l) "phone:"

/-- Collect stripped non-blank lines until a stop label (or end of text). -/
def collectDesc : List String → List String
  | [] => []
  | l :: ls =>
    if isStopLine l then []
    else (if pyStrip l ≠ "" then [pyStrip l] else []) ++ collectDesc ls

/-- Index of the line starting the description section: the first line
containing "company description" (case-insensitively) that is not the last
line. -/
def descriptionStartIdx (lines : List String) : Option Nat :=
  (List.range lines.length).find? (fun i =>
    strHas (lowerStr (lines.getD i "")) "company description" &&
      decide (i + 1 < lines.length))

/-- All URL matches of one line: the http(s) scan followed by the onion
scan, in match order (an onion URL is found by both scans and therefore
appended twice). -/
def lineLinks (l : String) : List String := scanUrls l.data ++ scanOnion l.data

/-- The file-links loop: once a line containing "files:" (case-insensitive,
on the lowered line) is seen, that line and every subsequent line is scanned
and all matches are appended in encountered order, without deduplication. -/
def fileLinksLoop : List String → Bool → List String
  | [], _ => []
  | l :: ls, sec =>
    if strHas (lowerStr l) "files:" || sec then lineLinks l ++ fileLinksLoop ls true
    else fileLinksLoop ls sec

/-- `parse_structured_description(text)`. -/
def parse_structured_description (text : String) : DescInfo :=
  if text = "" then {}
  else
    let lines := splitLines text
    let website := contactField [tokWebsite1, tokWebsite2] lines
    let email := contactField [tokEmail1, tokEmail2] lines
    let phone := contactField [tokPhone1, tokPhone2] lines
    let address := contactField [tokAddress1, tokAddress2] lines
    let contact :=
      (match website with | some w => [("website", pyStrip w)] | none => []) ++
      (match email with | some w => [("email", pyStrip w)] | none => []) ++
      (match phone with | some w => [("phone", pyStrip w)] | none => []) ++
      (match address with | some w => [("address", pyStrip w)] | none => [])
    { company_name := companyNameOf lines
      description :=
        match descriptionStartIdx lines with
        | some i => joinWith " " (collectDesc (lines.drop (i + 1)))
        | none => ""
      contact := contact
      data_size :=
        ((searchLines tokSize2 capSize lines) <|>
          (searchLines tokSize1 capSize lines)).getD ""
      file_links := fileLinksLoop lines false }

/-! ## Claim C7: file-link recovery -/

/-- Specification reading of the file-links loop: the section starts at the
first line whose *lowercased* text contains "files:", and from that line on
every line contributes its http(s) matches followed by its onion matches. -/
def fileLinksSpec (lines : List String) : List String :=
  match lines.findIdx? (fun l => strHas (lowerStr l) "files:") with
  | none => []
  | some i => ((lines.drop i).map lineLinks).flatten

theorem fileLinksLoop_true : ∀ ls : List String,
    fileLinksLoop ls true = (ls.map lineLinks).flatten
  | [] => rfl
  | l :: ls => by
    simp [fileLinksLoop, fileLinksLoop_true ls]

theorem fileLinksSpec_cons_neg (l : String) (ls : List String)
    (h' : strHas (lowerStr l) "files:" = false) :
    fileLinksSpec (l :: ls) = fileLinksSpec ls := by
  simp only [fileLinksSpec, List.findIdx?_cons, h']
  rw [if_neg (by simp)]
  cases hf : List.findIdx? (fun s => strHas (lowerStr s) "files:") ls with
  | none => simp [hf]
  | some j => simp [hf]

theorem fileLinksLoop_false : ∀ ls : List String,
    fileLinksLoop ls false = fileLinksSpec ls
  | [] => rfl
  | l :: ls => by
    by_cases h : strHas (lowerStr l) "files:" = true
    · simp only [fileLinksLoop, h, Bool.true_or, if_true]
      simp only [fileLinksSpec, List.findIdx?_cons, h, if_pos, List.drop_zero]
      simp [fileLinksLoop_true ls]
    · have h' : strHas (lowerStr l) "files:" = false := by
        cases hv : strHas (lowerStr l) "files:"
        · rfl
        · exact absurd hv h
      simp only [fileLinksLoop, h', Bool.false_or, fileLinksLoop_false ls]
      rw [if_neg (by simp), fileLinksSpec_cons_neg l ls h']

/-- C7, counterexample: the link section does *not* require the
case-sensitive label "FILES:" — the source lowercases each line and tests
for the substring "files:", so a lowercase label starts the section and its
line's http URL is recovered, although "FILES:" occurs nowhere. -/
theorem claim_C7_counterexample :
    strHas "files: http://example.com/data" "FILES:" = false ∧
    (parse_structured_description "files: http://example.com/data").file_links =
      ["http://example.com/data"] := ⟨rfl, rfl⟩

/-- C7 (amended): in the free-text recoverer, the link section starts at the
first line whose lowercased text contains the label "files:" (the match is
case-insensitive, not case-sensitive); from that line onward every line is
scanned for http(s) URLs and for onion URLs whose host is 16 to 56
alphanumeric characters immediately before ".onion", and all matches are
appended to file_links in encountered order without deduplication
(per line: all http(s) matches, then all onion matches). -/
theorem claim_C7_file_links (text : String) :
    (parse_structured_description text).file_links =
      fileLinksSpec (splitLines text) := by
  by_cases h : text = ""
  · subst h
    rfl
  · simp only [parse_structured_description, if_neg h]
    exact fileLinksLoop_false (splitLines text)

/-! ## The structured extractor: detail parsers and their registry

`ParserRegistry` (`core/database.py`, lines 26-69) and the LockBit detail
parsers (`scrapers/lockbit.py`).  A detail document is modelled by the
results of exactly the CSS selectors the parsers consult: each selector is
an optional node.  The description node is a list of top-level inline pieces
(`<br>` tags, nested tags with their flattened text, and bare text), which
is what `extract_text_from_br_tags` iterates over. -/

/-- One member of `element.contents`. -/
inductive Inline where
  | br
  | tag (s : String)
  | txt (s : String)

/-- BeautifulSoup `element.text`: all descendant text (a `<br>` has none). -/
def elemText (ns : List Inline) : String :=
  String.mk ((ns.map fun n =>
    match n with
    | .br => ""
    | .tag s => s
    | .txt s => s).foldr (fun s acc => s.data ++ acc) [])

/-- `extract_text_from_br_tags` (`core/database.py`, lines 72-86): `<br>`
becomes a newline, tags contribute their text, strings themselves. -/
def extract_text_from_br_tags (ns : List Inline) : String :=
  String.mk ((ns.map fun n =>
    match n with
    | .br => "\n"
    | .tag s => s
    | .txt s => s).foldr (fun s acc => s.data ++ acc) [])

/-- `desc_elem.find('br') is not None` on the modelled contents. -/
def hasBr (ns : List Inline) : Bool :=
  ns.any fun n =>
    match n with
    | .br => true
    | _ => false

/-- A detail-page document, as seen through the selectors used by the
LockBit detail parsers. -/
structure Doc where
  postCompanyContentDesc : Option (List Inline) := none
  plainDesc : Option (List Inline) := none
  postDescription : Option (List Inline) := none
  postText : Option (List Inline) := none
  divClassDesc : Option (List Inline) := none
  postWrapper : Bool := false
  postBannerP : Option String := none
  deadlineClass : Option String := none
  pContainsDeadline : Option String := none
  classContainsDeadline : Option String := none
  uploadedDateUtc : Option String := none
  uploadDate : Option String := none
  classContainsUpload : Option String := none
  updatedDateUtc : Option String := none
  updateDate : Option String := none
  classContainsUpdate : Option String := none

/-- Structural `str.replace` (all non-overlapping occurrences, left to
right), fuelled by the input length. -/
def replAux (needle repl : List Char) : Nat → List Char → List Char
  | 0, cs => cs
  | _ + 1, [] => []
  | fuel + 1, c :: t =>
    if needle.isPrefixOf (c :: t) then
      repl ++ replAux needle repl fuel ((c :: t).drop needle.length)
    else c :: replAux needle repl fuel t

/-- Python `s.replace(needle, repl)` (for the non-empty needles used here). -/
def replaceStr (s needle repl : String) : String :=
  String.mk (replAux needle.data repl.data s.data.length s.data)

/-- Suffix strictly after the first occurrence of `needle`. -/
def afterSub (needle : List Char) : List Char → Option (List Char)
  | [] => none
  | c :: t =>
    if needle.isPrefixOf (c :: t) then some ((c :: t).drop needle.length)
    else afterSub needle t

/-- Prefix up to (excluding) the first occurrence of `needle`, or the whole
list when absent. -/
def beforeSub (needle : List Char) : List Char → List Char
  | [] => []
  | c :: t =>
    if needle.isPrefixOf (c :: t) then [] else c :: beforeSub needle t

/-- Python `hay.split(needle)[1]` under the guard `needle in hay`: the text
between the first and (if any) second occurrence of `needle`. -/
def splitIdx1 (needle hay : List Char) : List Char :=
  match afterSub needle hay with
  | some rest => beforeSub needle rest
  | none => []

/-- `(?:[a-zA-Z]|[0-9]|[$-_@.&+]|[!*\(\),]|(?:%hh))` — the character union
of the FILES-section URL regex of V3/Generic.  `[$-_]` is the byte range
0x24-0x5F; the `%hh` alternative adds nothing beyond `%`, already in that
range. -/
def urlChar2 (c : Char) : Bool :=
  asciiAlnum c || (Char.ofNat 36 ≤ c && c ≤ Char.ofNat 95) ||
  c = '!' || c = '*' || c = backslashChar || c = '(' || c = ')' || c = ','

/-- One attempt of `http[s]?://(...)+` with the `urlChar2` class. -/
def tryUrl2At (cs : List Char) : Option (String × Nat) :=
  if "https://".data.isPrefixOf cs then
    let run := (cs.drop 8).takeWhile urlChar2
    if run.isEmpty then none
    else some (String.mk ("https://".data ++ run), 8 + run.length)
  else if "http://".data.isPrefixOf cs then
    let run := (cs.drop 7).takeWhile urlChar2
    if run.isEmpty then none
    else some (String.mk ("http://".data ++ run), 7 + run.length)
  else none

/-- `re.findall` of the FILES-section URL regex. -/
def scanUrls2 (cs : List Char) : List String := scanAux tryUrl2At cs.length cs

/-- The shared "add structured data to details" block of every detail
parser: each recovered field is added only when truthy. -/
def addStructured (d : VRec) (full : String) : VRec :=
  let sd := parse_structured_description full
  let d := if sd.company_name ≠ "" then dictSet d "company_name" (.str sd.company_name) else d
  let d := if sd.description ≠ "" then
    dictSet d "business_description" (.str sd.description) else d
  let d := if sd.contact ≠ [] then
    dictSet d "contact_info" (.dict (sd.contact.map fun p => (p.1, Value.str p.2))) else d
  let d := if sd.data_size ≠ "" then dictSet d "data_size" (.str sd.data_size) else d
  if sd.file_links ≠ [] then
    dictSet d "file_links" (.list (sd.file_links.map Value.str)) else d

/-- The special FILES-section handling of V3 and the generic parser:
case-sensitive label, `split('FILES:')[1].strip()`, and the wide URL regex;
a non-empty match list overwrites `file_links`. -/
def filesSpecial (d : VRec) (full : String) : VRec :=
  if strHas full "FILES:" then
    let sect := pyStrip (String.mk (splitIdx1 "FILES:".data full.data))
    let links := scanUrls2 sect.data
    if links ≠ [] then dictSet d "file_links" (.list (links.map Value.str)) else d
  else d

/-- `LockBitDetailParserV1.parse_victim_details` (`scrapers/lockbit.py`,
lines 85-132). -/
def v1_parse_details (doc : Doc) : VRec :=
  let d : VRec := []
  let d :=
    match doc.postCompanyContentDesc with
    | none => d
    | some node =>
      let full := if hasBr node then extract_text_from_br_tags node
                  else pyStrip (elemText node)
      addStructured (dictSet d "description_full" (.str full)) full
  let d :=
    match doc.postBannerP with
    | some t =>
      if strHas t "Deadline:" then
        dictSet d "deadline" (.str (pyStrip (replaceStr t "Deadline:" "")))
      else d
    | none => d
  let d :=
    match doc.uploadedDateUtc with
    | some t => dictSet d "uploaded" (.str (pyStrip t))
    | none => d
  match doc.updatedDateUtc with
  | some t => dictSet d "updated" (.str (pyStrip t))
  | none => d

/-- `LockBitDetailParserV2.parse_victim_details` (lines 144-191): its body
is line-for-line identical to V1's; only `can_parse` differs. -/
def v2_parse_details (doc : Doc) : VRec := v1_parse_details doc

/-- `LockBitDetailParserV3.parse_victim_details` (lines 204-256):
unconditional `<br>`-aware linearization plus the FILES-section special
handling. -/
def v3_parse_details (doc : Doc) : VRec :=
  let d : VRec := []
  let d :=
    match doc.postCompanyContentDesc with
    | none => d
    | some node =>
      let full := extract_text_from_br_tags node
      filesSpecial (addStructured (dictSet d "description_full" (.str full)) full) full
  let d :=
    match doc.postBannerP with
    | some t =>
      if strHas t "Deadline:" then
        dictSet d "deadline" (.str (pyStrip (replaceStr t "Deadline:" "")))
      else d
    | none => d
  let d :=
    match doc.uploadedDateUtc with
    | some t => dictSet d "uploaded" (.str (pyStrip t))
    | none => d
  match doc.updatedDateUtc with
  | some t => dictSet d "updated" (.str (pyStrip t))
  | none => d

/-- The generic parser's deadline loop: first selector whose node exists and
contains "Deadline:" wins; nodes without the label are skipped. -/
def findDeadline : List (Option String) → Option String
  | [] => none
  | some t :: rest => if strHas t "Deadline:" then some t else findDeadline rest
  | none :: rest => findDeadline rest

/-- `GenericLockBitDetailParser.parse_victim_details` (lines 268-352):
multi-selector fallbacks for description, deadline and dates, then the
FILES-section special handling. -/
def generic_parse_details (doc : Doc) : VRec :=
  let d : VRec := []
  let descNode := doc.postCompanyContentDesc <|> doc.plainDesc <|>
    doc.postDescription <|> doc.postText <|> doc.divClassDesc
  let dFull :=
    match descNode with
    | none => (d, none)
    | some node =>
      let full := if hasBr node then extract_text_from_br_tags node
                  else pyStrip (elemText node)
      (addStructured (dictSet d "description_full" (.str full)) full, some full)
  let d := dFull.1
  let d :=
    match findDeadline [doc.postBannerP, doc.deadlineClass, doc.pContainsDeadline,
        doc.classContainsDeadline] with
    | some t => dictSet d "deadline" (.str (pyStrip (replaceStr t "Deadline:" "")))
    | none => d
  let d :=
    match doc.uploadedDateUtc <|> doc.uploadDate <|> doc.classContainsUpload with
    | some t => dictSet d "uploaded" (.str (pyStrip t))
    | none => d
  let d :=
    match doc.updatedDateUtc <|> doc.updateDate <|> doc.classContainsUpdate with
    | some t => dictSet d "updated" (.str (pyStrip t))
    | none => d
  match dFull.2 with
  | some full => filesSpecial d full
  | none => d

/-- A registered detail parser: a name, a capability predicate, and an
extraction function. -/
structure DetailParser where
  name : String
  can_parse : Doc → Bool
  parse_victim_details : Doc → VRec

/-- `LockBitDetailParserV3`: `.post-company-content .desc` exists and
contains a `<br>`. -/
def lockbitDetailV3 : DetailParser :=
  { name := "LockBit Detail Parser V3"
    can_parse := fun doc =>
      match doc.postCompanyContentDesc with
      | some node => hasBr node
      | none => false
    parse_victim_details := v3_parse_details }

/-- `LockBitDetailParserV2`: `.post-wrapper` exists. -/
def lockbitDetailV2 : DetailParser :=
  { name := "LockBit Detail Parser V2"
    can_parse := fun doc => doc.postWrapper
    parse_victim_details := v2_parse_details }

/-- `LockBitDetailParserV1`: `.post-company-content .desc` exists. -/
def lockbitDetailV1 : DetailParser :=
  { name := "LockBit Detail Parser V1"
    can_parse := fun doc => doc.postCompanyContentDesc.isSome
    parse_victim_details := v1_parse_details }

/-- `GenericLockBitDetailParser`: the always-true catch-all. -/
def lockbitDetailGeneric : DetailParser :=
  { name := "LockBit Generic Detail Parser"
    can_parse := fun _ => true
    parse_victim_details := generic_parse_details }

/-- `LockBitScraper.register_parsers` (lines 360-369): the fixed
registration order of the detail parsers — V3, V2, V1, then the generic
fallback. -/
def lockbit_detail_registry : List DetailParser :=
  [lockbitDetailV3, lockbitDetailV2, lockbitDetailV1, lockbitDetailGeneric]

/-- The registry loop of `ParserRegistry.parse_victim_details`: the first
registered parser whose predicate accepts the document extracts,
exclusively; an empty dict results when none accepts. -/
def firstAccepting : List DetailParser → Doc → VRec
  | [], _ => []
  | p :: ps, doc =>
    if p.can_parse doc then p.parse_victim_details doc else firstAccepting ps doc

/-- `ParserRegistry.parse_victim_details(html_content)` (lines 56-69);
`none` models falsy html content, for which an empty dict is returned
without consulting any parser. -/
def registry_parse_victim_details (ps : List DetailParser) (html : Option Doc) : VRec :=
  match html with
  | none => []
  | some doc => firstAccepting ps doc

/-! ## Claim C5: parser registry dispatch -/

theorem firstAccepting_spec : ∀ (ps : List DetailParser) (doc : Doc) (i : Nat)
    (p : DetailParser),
    ps[i]? = some p → p.can_parse doc = true →
    (∀ j q, j < i → ps[j]? = some q → q.can_parse doc = false) →
    firstAccepting ps doc = p.parse_victim_details doc
  | [], _, i, p, hp, _, _ => by simp at hp
  | q0 :: ps, doc, 0, p, hp, hacc, _ => by
    obtain rfl : q0 = p := by simpa using hp
    simp [firstAccepting, hacc]
  | q0 :: ps, doc, i + 1, p, hp, hacc, hbefore => by
    have h0 : q0.can_parse doc = false := hbefore 0 q0 (Nat.succ_pos i) (by simp)
    simp only [firstAccepting, h0]
    rw [if_neg (by simp)]
    exact firstAccepting_spec ps doc i p (by simpa using hp) hacc
      (fun j q hj hq => hbefore (j + 1) q (by omega) (by simpa using hq))

/-- C5: parser registry dispatch.  Parsers are consulted in registration
order and the first parser whose `can_parse` predicate accepts the document
performs the extraction exclusively.  For the LockBit detail registry
(V3, V2, V1, generic): a document matching only the generic fallback's
selectors (here a bare `.desc` node) gets the fallback's non-empty
extraction, and a document that the specific V1 parser accepts gets V1's
extraction even though the always-true fallback also accepts it — shown by a
deadline field the fallback would extract but V1 does not. -/
theorem claim_C5_dispatch :
    (∀ (ps : List DetailParser) (doc : Doc) (i : Nat) (p : DetailParser),
      ps[i]? = some p → p.can_parse doc = true →
      (∀ j q, j < i → ps[j]? = some q → q.can_parse doc = false) →
      registry_parse_victim_details ps (some doc) = p.parse_victim_details doc) ∧
    (registry_parse_victim_details lockbit_detail_registry
        (some { plainDesc := some [.txt "Independent shop."] }) =
      lockbitDetailGeneric.parse_victim_details
        { plainDesc := some [.txt "Independent shop."] } ∧
     lockbitDetailGeneric.parse_victim_details
        { plainDesc := some [.txt "Independent shop."] } =
      [("description_full", .str "Independent shop.")]) ∧
    (registry_parse_victim_details lockbit_detail_registry
        (some { postCompanyContentDesc := some [.txt "Flagship corp."],
                deadlineClass := some "Deadline: 01 Jan 2026" }) =
      lockbitDetailV1.parse_victim_details
        { postCompanyContentDesc := some [.txt "Flagship corp."],
          deadlineClass := some "Deadline: 01 Jan 2026" } ∧
     lockbitDetailGeneric.can_parse
        { postCompanyContentDesc := some [.txt "Flagship corp."],
          deadlineClass := some "Deadline: 01 Jan 2026" } = true ∧
     findEntry (lockbitDetailV1.parse_victim_details
        { postCompanyContentDesc := some [.txt "Flagship corp."],
          deadlineClass := some "Deadline: 01 Jan 2026" }) "deadline" = none ∧
     findEntry (lockbitDetailGeneric.parse_victim_details
        { postCompanyContentDesc := some [.txt "Flagship corp."],
          deadlineClass := some "Deadline: 01 Jan 2026" }) "deadline" =
       some (.str "01 Jan 2026")) :=
  ⟨fun ps doc i p hp hacc hb => firstAccepting_spec ps doc i p hp hacc hb,
   ⟨rfl, rfl⟩, ⟨rfl, rfl, rfl, rfl⟩⟩

/-- C5, witness: the general dispatch statement applied to the LockBit
registry at index 2 (V1), with V3 and V2 rejecting the document. -/
theorem claim_C5_witness :
    registry_parse_victim_details lockbit_detail_registry
        (some { postCompanyContentDesc := some [.txt "Flagship corp."],
                deadlineClass := some "Deadline: 01 Jan 2026" }) =
      lockbitDetailV1.parse_victim_details
        { postCompanyContentDesc := some [.txt "Flagship corp."],
          deadlineClass := some "Deadline: 01 Jan 2026" } := by
  apply claim_C5_dispatch.1 lockbit_detail_registry
    { postCompanyContentDesc := some [.txt "Flagship corp."],
      deadlineClass := some "Deadline: 01 Jan 2026" }
    2 lockbitDetailV1 (by simp [lockbit_detail_registry]) rfl
  intro j q hj hq
  interval_cases j
  · simp only [lockbit_detail_registry, List.getElem?_cons_zero,
      Option.some.injEq] at hq
    subst hq
    rfl
  · simp only [lockbit_detail_registry, List.getElem?_cons_succ,
      List.getElem?_cons_zero, Option.some.injEq] at hq
    subst hq
    rfl

/-! ## The list parser and the batch cap

`LockBitListParserV1.parse_victim_list` (`scrapers/lockbit.py`, lines
21-73) and `BaseScraper.scrape_victims` (`scrapers/base.py`, lines 63-75).
A listing entry (`a.post-block`) is modelled by the text of the selectors
the parser consults. -/

/-- One listing-entry block, through the consulted selectors. -/
structure Entry where
  postTitle : Option String := none
  postTimerEnd : Option String := none
  postBlockText : Option String := none
  updatedPostDateSpan : Option String := none
  viewsBold : Option String := none
  viewsBold2 : Option String := none
  href : Option String := none

/-- `int(digits[0])` over `re.findall(r'\d+', s)`: the value of the first
run of digits, when one exists. -/
def firstDigitRun (s : String) : Option Nat :=
  let ds := (s.data.dropWhile fun c => !c.isDigit).takeWhile Char.isDigit
  if ds.isEmpty then none
  else some (ds.foldl (fun acc c => 10 * acc + (c.toNat - 48)) 0)

/-- The per-entry extraction of `parse_victim_list`: domain (stripped),
status (stripped, uppercased), description preview (200-character cap with
trailing dots), update timestamp (text after a first "Updated:" label,
stripped), best-effort views counter, and the detail link. -/
def buildVictim (e : Entry) : VRec :=
  let v : VRec := []
  let v :=
    match e.postTitle with
    | some t => dictSet v "domain" (.str (pyStrip t))
    | none => v
  let v :=
    match e.postTimerEnd with
    | some t => dictSet v "status" (.str (upperStr (pyStrip t)))
    | none => v
  let v :=
    match e.postBlockText with
    | some t =>
      let s := pyStrip t
      dictSet v "description_preview"
        (.str (if 200 < s.data.length then String.mk (s.data.take 200) ++ "..." else s))
    | none => v
  let v :=
    match e.updatedPostDateSpan with
    | some t =>
      let ts := pyStrip t
      let ts := if strHas ts "Updated:" then
        pyStrip (String.mk (splitIdx1 "Updated:".data ts.data)) else ts
      dictSet v "updated" (.str ts)
    | none => v
  let v :=
    match e.viewsBold <|> e.viewsBold2 with
    | some t =>
      match firstDigitRun (pyStrip t) with
      | some n => dictSet v "views" (.int n)
      | none => v
    | none => v
  match e.href with
  | some l => dictSet v "detail_link" (.str l)
  | none => v

/-- `parse_victim_list`: entries lacking a resolvable domain are dropped. -/
def parse_victim_list (entries : List Entry) : List VRec :=
  (entries.map buildVictim).filter fun v => (findEntry v "domain").isSome

/-- A registered list-page parser. -/
structure ListShapeParser where
  name : String
  can_parse : List Entry → Bool
  parse_victim_list : List Entry → List VRec

/-- `LockBitListParserV1`: accepts when `soup.select('a.post-block')` is
non-empty. -/
def lockbitListV1 : ListShapeParser :=
  { name := "LockBit List Parser V1"
    can_parse := fun entries => !entries.isEmpty
    parse_victim_list := parse_victim_list }

/-- The registered list parsers for LockBit: only V1. -/
def lockbit_list_registry : List ListShapeParser := [lockbitListV1]

/-- The list-side registry loop of `ParserRegistry.parse_victim_list`. -/
def firstAcceptingList : List ListShapeParser → List Entry → List VRec
  | [], _ => []
  | p :: ps, doc =>
    if p.can_parse doc then p.parse_victim_list doc else firstAcceptingList ps doc

/-- `ParserRegistry.parse_victim_list(html_content)` (lines 41-54). -/
def registry_parse_victim_list (ps : List ListShapeParser)
    (html : Option (List Entry)) : List VRec :=
  match html with
  | none => []
  | some doc => firstAcceptingList ps doc

/-- `SCRAPER_SETTINGS.get("max_victims_per_group", 5)`
(`config/settings.py`, line 28: the key is present with value 5). -/
def SCRAPER_SETTINGS_max_victims_per_group : Nat := 5

/-- `BaseScraper.scrape_victims`: fetch, parse through the registry, and cap
at the configured number of most recent victims; `none` models a fetch that
returned no content. -/
def scrape_victims (fetched : Option (List Entry)) : List VRec :=
  match fetched with
  | none => []
  | some entries =>
    let victims := registry_parse_victim_list lockbit_list_registry (some entries)
    if victims.length > SCRAPER_SETTINGS_max_victims_per_group then
      victims.take SCRAPER_SETTINGS_max_victims_per_group
    else victims

/-! ## Claims C8, C9, C10: views extraction, preview truncation, batch cap -/

/-- C8, counterexample: when the views node's text contains no digits, the
extraction does not yield `views = 0` — the `views` key is simply omitted
(`int(digits[0])` never raises on a found digit run, so the
`except ValueError` arm that would write 0 is unreachable). -/
theorem claim_C8_counterexample :
    findEntry (buildVictim
        { postTitle := some "acme.example", viewsBold := some "no views yet" })
      "views" = none ∧
    findEntry (buildVictim
        { postTitle := some "acme.example", viewsBold := some "no views yet" })
      "views" ≠ some (.int 0) := by
  constructor
  · rfl
  · intro h
    have e1 : findEntry (buildVictim
        { postTitle := some "acme.example", viewsBold := some "no views yet" })
      "views" = none := rfl
    rw [e1] at h
    cases h

/-- C8 (amended): for every listing entry with a views node, the views field
is the integer value of the first run of digits found in the node's
stripped text; when no digits are present the views key is omitted from the
extraction (never set to 0), and no exception is raised (the extraction is
total). -/
theorem claim_C8_views (e : Entry) (s : String)
    (hv : (e.viewsBold <|> e.viewsBold2) = some s) :
    (∀ n, firstDigitRun (pyStrip s) = some n →
      findEntry (buildVictim e) "views" = some (.int n)) ∧
    (firstDigitRun (pyStrip s) = none →
      findEntry (buildVictim e) "views" = none) := by
  constructor
  · intro n hdig
    simp only [buildVictim, hv, hdig]
    repeat' split
    all_goals simp_all [dictSet, findEntry]
  · intro hdig
    simp only [buildVictim, hv, hdig]
    repeat' split
    all_goals simp_all [dictSet, findEntry]

/-- C8, witness: a node text " 1 234 views " yields views 1 (the first
digit run), and a digit-free node yields no views key. -/
theorem claim_C8_witness :
    findEntry (buildVictim
        { postTitle := some "acme.example", viewsBold := some " 1 234 views " })
      "views" = some (.int 1) ∧
    findEntry (buildVictim
        { postTitle := some "acme.example", viewsBold2 := some "none" })
      "views" = none := by
  constructor
  · exact (claim_C8_views
      { postTitle := some "acme.example", viewsBold := some " 1 234 views " }
      " 1 234 views " rfl).1 1 rfl
  · exact (claim_C8_views
      { postTitle := some "acme.example", viewsBold2 := some "none" }
      "none" rfl).2 rfl

/-- C9: description-preview truncation.  For every listing entry with a
description node, the stripped description is truncated to its first 200
characters with three trailing dots appended when longer than 200
characters, and kept verbatim (no dots) when at most 200 characters. -/
theorem claim_C9_truncation (e : Entry) (s : String)
    (hd : e.postBlockText = some s) :
    (200 < (pyStrip s).data.length →
      findEntry (buildVictim e) "description_preview" =
        some (.str (String.mk ((pyStrip s).data.take 200) ++ "..."))) ∧
    ((pyStrip s).data.length ≤ 200 →
      findEntry (buildVictim e) "description_preview" =
        some (.str (pyStrip s))) := by
  constructor
  · intro hlen
    simp only [buildVictim, hd]
    repeat' split
    all_goals simp_all [dictSet, findEntry]
  · intro hlen
    simp only [buildVictim, hd]
    repeat' split
    all_goals simp_all [dictSet, findEntry]
    all_goals omega

set_option maxRecDepth 8192 in
/-- C9, witness: a 201-character description becomes its first 200
characters plus "...", and a 200-character description is kept verbatim. -/
theorem claim_C9_witness :
    findEntry (buildVictim { postBlockText := some (String.mk (List.replicate 201 'a')) })
        "description_preview" =
      some (.str (String.mk (List.replicate 200 'a') ++ "...")) ∧
    findEntry (buildVictim { postBlockText := some (String.mk (List.replicate 200 'a')) })
        "description_preview" =
      some (.str (String.mk (List.replicate 200 'a'))) := by
  constructor
  · have h := (claim_C9_truncation
      { postBlockText := some (String.mk (List.replicate 201 'a')) }
      (String.mk (List.replicate 201 'a')) rfl).1 (by decide)
    rw [h]
    rfl
  · exact (claim_C9_truncation
      { postBlockText := some (String.mk (List.replicate 200 'a')) }
      (String.mk (List.replicate 200 'a')) rfl).2 (by decide)

/-- C10: the implicit batch cap.  `scrape_victims` returns at most 5
victims (`SCRAPER_SETTINGS["max_victims_per_group"]`): its result is
exactly the first 5 entries extracted by the registered list parser, every
later entry being dropped; a contentless fetch yields no victims.  A
six-entry listing concretely loses its sixth entry. -/
theorem claim_C10_cap :
    (∀ fetched, (scrape_victims fetched).length ≤
      SCRAPER_SETTINGS_max_victims_per_group) ∧
    (∀ entries, scrape_victims (some entries) =
      (registry_parse_victim_list lockbit_list_registry (some entries)).take
        SCRAPER_SETTINGS_max_victims_per_group) ∧
    scrape_victims none = [] ∧
    scrape_victims (some ((List.range 6).map fun i =>
        { postTitle := some (Nat.repr i) } : List Entry)) =
      (List.range 5).map fun i => [("domain", Value.str (Nat.repr i))] := by
  have htake : ∀ entries, scrape_victims (some entries) =
      (registry_parse_victim_list lockbit_list_registry (some entries)).take
        SCRAPER_SETTINGS_max_victims_per_group := by
    intro entries
    simp only [scrape_victims]
    by_cases h : (registry_parse_victim_list lockbit_list_registry
        (some entries)).length > SCRAPER_SETTINGS_max_victims_per_group
    · rw [if_pos h]
    · rw [if_neg h, List.take_of_length_le (by omega)]
  refine ⟨?_, htake, rfl, ?_⟩
  · intro fetched
    cases fetched with
    | none => simp [scrape_victims]
    | some entries =>
      rw [htake entries]
      have := List.length_take SCRAPER_SETTINGS_max_victims_per_group
        (registry_parse_victim_list lockbit_list_registry (some entries))
      omega
  · rw [htake]
    rfl

/-! ## The STIX exporter

`OpenCTIExporter` (`core/exporters.py`, lines 133-301).  `_hash_string`
feeds its input through `hashlib.md5(...).hexdigest()` — an external,
deterministic primitive, modelled as an explicit function parameter
`digest` — and regroups the fixed-width hex digest into a UUID-like
`8-4-4-4-12` string.  A victim, as consumed by `generate_feed`, is the
record fields the exporter reads; `now` stands for the repeated
`datetime.datetime.now().strftime(...)` calls (all `created`/`modified`
stamps of one render pass). -/

/-- A victim record as consumed by the STIX exporter. -/
structure StixVictim where
  domain : String
  group : Option String := none
  company_name : Option String := none
  business_description : Option String := none
  description_preview : Option String := none
  contact_info : List (String × String) := []
  file_links : List String := []
  first_seen : Option String := none
  updated : Option String := none

/-- A STIX object field value: string, string list, or boolean. -/
inductive SVal where
  | s (v : String)
  | list (vs : List String)
  | bool (b : Bool)

/-- A STIX object: ordered field map. -/
abbrev StixObj := List (String × SVal)

/-- Field lookup on a STIX object. -/
def sLookup : StixObj → String → Option SVal
  | [], _ => none
  | (k, v) :: t, key => if k = key then some v else sLookup t key

/-- The `id` field of a STIX object. -/
def objId (o : StixObj) : String :=
  match sLookup o "id" with
  | some (.s x) => x
  | _ => ""

/-- Python slice `s[a:b]`. -/
def strSlice (s : String) (a b : Nat) : String :=
  String.mk ((s.data.drop a).take (b - a))

/-- `_hash_string` (lines 297-301): hex digest regrouped as
`8-4-4-4-12`. -/
def hashString (digest : String → String) (input_string : String) : String :=
  let hex := digest input_string
  strSlice hex 0 8 ++ "-" ++ strSlice hex 8 12 ++ "-" ++ strSlice hex 12 16 ++
    "-" ++ strSlice hex 16 20 ++ "-" ++ strSlice hex 20 32

/-- Python `str.capitalize()`: first character upper, rest lower. -/
def pyCapitalize (s : String) : String :=
  match s.data with
  | [] => ""
  | c :: t => String.mk (c.toUpper :: t.map Char.toLower)

/-- Lookup in the `threat_actors` memo dict. -/
def lookupStr : List (String × String) → String → Option String
  | [], _ => none
  | (k, v) :: t, key => if k = key then some v else lookupStr t key

/-- The threat-actor object emitted once per new group. -/
def actorObj (digest : String → String) (now g : String) : StixObj :=
  [("type", .s "threat-actor"), ("spec_version", .s "2.1"),
   ("id", .s ("threat-actor--" ++ hashString digest g)),
   ("created", .s now), ("modified", .s now),
   ("name", .s (g ++ " Ransomware Group")),
   ("description", .s (g ++ " ransomware group")),
   ("threat_actor_types", .list ["crime-syndicate", "criminal"])]

/-- The malware object emitted once per new group. -/
def malwareObj (digest : String → String) (now g : String) : StixObj :=
  [("type", .s "malware"), ("spec_version", .s "2.1"),
   ("id", .s ("malware--" ++ hashString digest (g ++ "-malware"))),
   ("created", .s now), ("modified", .s now),
   ("name", .s (g ++ " Ransomware")),
   ("description", .s ("Ransomware operated by the " ++ g ++ " group")),
   ("malware_types", .list ["ransomware"]), ("is_family", .bool true)]

/-- The actor-uses-malware relationship. -/
def usesRel (digest : String → String) (now g aid mid : String) : StixObj :=
  [("type", .s "relationship"), ("spec_version", .s "2.1"),
   ("id", .s ("relationship--" ++ hashString digest (g ++ "-uses-malware"))),
   ("created", .s now), ("modified", .s now),
   ("relationship_type", .s "uses"),
   ("source_ref", .s aid), ("target_ref", .s mid)]

/-- The victim identity object (contact information appended last, when
present). -/
def identityObj (now : String) (v : StixVictim) (vid : String) : StixObj :=
  let base : StixObj :=
    [("type", .s "identity"), ("spec_version", .s "2.1"), ("id", .s vid),
     ("created", .s ((v.first_seen).getD now)),
     ("modified", .s ((v.updated).getD now)),
     ("name", .s ((v.company_name).getD v.domain)),
     ("description", .s ((v.business_description).getD
        ((v.description_preview).getD ""))),
     ("identity_class", .s "organization"), ("sectors", .list ["unknown"]),
     ("x_opencti_aliases", .list [v.domain])]
  if v.contact_info.isEmpty then base
  else base ++ [("contact_information",
    .s (joinWith "\n" (v.contact_info.map fun p => pyCapitalize p.1 ++ ": " ++ p.2)))]

/-- The actor-targets-identity relationship. -/
def targetsRel (digest : String → String) (now g dom aid vid : String) : StixObj :=
  [("type", .s "relationship"), ("spec_version", .s "2.1"),
   ("id", .s ("relationship--" ++ hashString digest (g ++ "-targets-" ++ dom))),
   ("created", .s now), ("modified", .s now),
   ("relationship_type", .s "targets"),
   ("source_ref", .s aid), ("target_ref", .s vid)]

/-- The domain indicator for a victim. -/
def domainIndicator (digest : String → String) (now g dom : String)
    (fs : Option String) : StixObj :=
  [("type", .s "indicator"), ("spec_version", .s "2.1"),
   ("id", .s ("indicator--" ++ hashString digest ("domain-" ++ dom))),
   ("created", .s now), ("modified", .s now),
   ("name", .s ("Domain: " ++ dom)),
   ("description", .s ("Domain associated with " ++ g ++ " ransomware victim")),
   ("indicator_types", .list ["malicious-activity"]),
   ("pattern", .s ("[domain-name:value = '" ++ dom ++ "']")),
   ("pattern_type", .s "stix"),
   ("valid_from", .s (fs.getD now))]

/-- The domain-indicator-indicates-identity relationship. -/
def indicatesRel (digest : String → String) (now dom domIndId vid : String) : StixObj :=
  [("type", .s "relationship"), ("spec_version", .s "2.1"),
   ("id", .s ("relationship--" ++ hashString digest ("indicates-" ++ dom))),
   ("created", .s now), ("modified", .s now),
   ("relationship_type", .s "indicates"),
   ("source_ref", .s domIndId), ("target_ref", .s vid)]

/-- The URL indicator for one file link. -/
def urlIndicator (digest : String → String) (now g link : String)
    (fs : Option String) : StixObj :=
  [("type", .s "indicator"), ("spec_version", .s "2.1"),
   ("id", .s ("indicator--" ++ hashString digest ("url-" ++ link))),
   ("created", .s now), ("modified", .s now),
   ("name", .s ("URL: " ++ strSlice link 0 50 ++ "...")),
   ("description", .s ("File download link associated with " ++ g ++
     " ransomware victim")),
   ("indicator_types", .list ["malicious-activity"]),
   ("pattern", .s ("[url:value = '" ++ link ++ "']")),
   ("pattern_type", .s "stix"),
   ("valid_from", .s (fs.getD now))]

/-- The URL-indicator-indicates-identity relationship (keyed by the link's
position). -/
def urlIndRel (digest : String → String) (now dom : String) (i : Nat)
    (urlIndId vid : String) : StixObj :=
  [("type", .s "relationship"), ("spec_version", .s "2.1"),
   ("id", .s ("relationship--" ++
     hashString digest ("url-indicates-" ++ dom ++ Nat.repr i))),
   ("created", .s now), ("modified", .s now),
   ("relationship_type", .s "indicates"),
   ("source_ref", .s urlIndId), ("target_ref", .s vid)]

/-- The two objects emitted per enumerated file link. -/
def fileLinkObjs (digest : String → String) (now g dom vid : String)
    (fs : Option String) (p : Nat × String) : List StixObj :=
  [urlIndicator digest now g p.2 fs,
   urlIndRel digest now dom p.1
     ("indicator--" ++ hashString digest ("url-" ++ p.2)) vid]

/-- The objects emitted for one victim, together with the updated
threat-actor memo. -/
def victimObjs (digest : String → String) (now : String)
    (memo : List (String × String)) (v : StixVictim) :
    List StixObj × List (String × String) :=
  if v.domain = "" then ([], memo)
  else
    let g := pyCapitalize ((v.group).getD "unknown")
    let groupPart :=
      match lookupStr memo g with
      | some aid => ([], memo, aid)
      | none =>
        let aid := "threat-actor--" ++ hashString digest g
        let mid := "malware--" ++ hashString digest (g ++ "-malware")
        ([actorObj digest now g, malwareObj digest now g,
          usesRel digest now g aid mid], memo ++ [(g, aid)], aid)
    let vid := "identity--" ++ hashString digest v.domain
    let domIndId := "indicator--" ++ hashString digest ("domain-" ++ v.domain)
    (groupPart.1 ++
      [identityObj now v vid,
       targetsRel digest now g v.domain groupPart.2.2 vid,
       domainIndicator digest now g v.domain v.first_seen,
       indicatesRel digest now v.domain domIndId vid] ++
      (v.file_links.enum.flatMap (fileLinkObjs digest now g v.domain vid v.first_seen)),
     groupPart.2.1)

/-- The victim loop of `OpenCTIExporter.generate_feed`. -/
def gfAux (digest : String → String) (now : String) :
    List (String × String) → List StixVictim → List StixObj
  | _, [] => []
  | memo, v :: vs =>
    (victimObjs digest now memo v).1 ++ gfAux digest now (victimObjs digest now memo v).2 vs

/-- `OpenCTIExporter.generate_feed(victims)`: the `objects` array. -/
def generate_feed (digest : String → String) (victims : List StixVictim)
    (now : String) : List StixObj :=
  gfAux digest now [] victims

/-- The object identifiers of a feed, in emission order. -/
def feedIds (objs : List StixObj) : List String := objs.map objId

/-! ## Claim C6: STIX identifier determinism -/

/-- Specification reading of the exporter's object identifiers: each one is
the kind prefix plus the UUID-grouped digest of its stable composite key
(group name for the threat actor; group+"-malware" and group+"-uses-malware"
for the malware and its relationship; the victim's domain for the identity;
and so on), independent of the render pass's clock.  `seen` is the set of
group names already emitted. -/
def stixIdsSpec (digest : String → String) : List String → List StixVictim → List String
  | _, [] => []
  | seen, v :: vs =>
    if v.domain = "" then stixIdsSpec digest seen vs
    else
      let g := pyCapitalize ((v.group).getD "unknown")
      (if seen.contains g then [] else
        ["threat-actor--" ++ hashString digest g,
         "malware--" ++ hashString digest (g ++ "-malware"),
         "relationship--" ++ hashString digest (g ++ "-uses-malware")]) ++
      (["identity--" ++ hashString digest v.domain,
        "relationship--" ++ hashString digest (g ++ "-targets-" ++ v.domain),
        "indicator--" ++ hashString digest ("domain-" ++ v.domain),
        "relationship--" ++ hashString digest ("indicates-" ++ v.domain)] ++
       v.file_links.enum.flatMap (fun p =>
         ["indicator--" ++ hashString digest ("url-" ++ p.2),
          "relationship--" ++
            hashString digest ("url-indicates-" ++ v.domain ++ Nat.repr p.1)])) ++
      stixIdsSpec digest (if seen.contains g then seen else seen ++ [g]) vs

theorem lookupStr_isSome : ∀ (memo : List (String × String)) (g : String),
    (lookupStr memo g).isSome = (memo.map Prod.fst).contains g
  | [], _ => rfl
  | (k, v) :: t, g => by
    by_cases h : k = g
    · subst h
      simp [lookupStr]
    · simp [lookupStr, h, lookupStr_isSome t g, Ne.symm h]

theorem objId_identityObj (now : String) (v : StixVictim) (vid : String) :
    objId (identityObj now v vid) = vid := by
  unfold identityObj
  by_cases h : v.contact_info.isEmpty <;> simp [h, objId, sLookup]

theorem fileLinkObjs_ids (digest : String → String) (now g dom vid : String)
    (fs : Option String) : ∀ l : List (Nat × String),
    (l.flatMap (fileLinkObjs digest now g dom vid fs)).map objId =
      l.flatMap (fun p =>
        ["indicator--" ++ hashString digest ("url-" ++ p.2),
         "relationship--" ++
           hashString digest ("url-indicates-" ++ dom ++ Nat.repr p.1)])
  | [] => rfl
  | p :: ps => by
    simp only [List.flatMap_cons, List.map_append,
      fileLinkObjs_ids digest now g dom vid fs ps]
    rfl

theorem gfAux_ids (digest : String → String) (now : String) :
    ∀ (vs : List StixVictim) (memo : List (String × String)),
    (gfAux digest now memo vs).map objId = stixIdsSpec digest (memo.map Prod.fst) vs
  | [], _ => rfl
  | v :: vs, memo => by
    simp only [gfAux, List.map_append]
    by_cases hd : v.domain = ""
    · simp only [victimObjs, if_pos hd, stixIdsSpec, List.map_nil,
        List.nil_append]
      exact gfAux_ids digest now vs memo
    · cases hl : lookupStr memo (pyCapitalize ((v.group).getD "unknown")) with
      | some aid =>
        have hc : (memo.map Prod.fst).contains
            (pyCapitalize ((v.group).getD "unknown")) = true := by
          rw [← lookupStr_isSome, hl]
          rfl
        simp only [victimObjs, if_neg hd, hl, stixIdsSpec, if_pos hc,
          List.map_append, fileLinkObjs_ids, List.map_cons, List.map_nil,
          objId_identityObj, List.nil_append,
          gfAux_ids digest now vs memo]
        rfl
      | none =>
        have hc : (memo.map Prod.fst).contains
            (pyCapitalize ((v.group).getD "unknown")) = false := by
          rw [← lookupStr_isSome, hl]
          rfl
        have hn : ¬ ((memo.map Prod.fst).contains
            (pyCapitalize ((v.group).getD "unknown")) = true) := by
          rw [hc]
          exact Bool.false_ne_true
        simp only [victimObjs, if_neg hd, hl, stixIdsSpec, if_neg hn,
          List.map_append, fileLinkObjs_ids, List.map_cons, List.map_nil,
          objId_identityObj,
          gfAux_ids digest now vs
            (memo ++ [(pyCapitalize ((v.group).getD "unknown"),
              "threat-actor--" ++
                hashString digest (pyCapitalize ((v.group).getD "unknown")))])]
        rfl

/-- Claim C6 (STIX identifier determinism): the object identifiers emitted by
`generate_feed` are exactly `stixIdsSpec` — each identifier is the object
kind's prefix plus the fixed-width digest of its stable composite key,
regrouped as a UUID-like string by `hashString`, and is a pure function of
the victim corpus alone — so two render passes over the same corpus, at
different clock readings `now` and `now2`, produce byte-identical
identifier sequences. -/
theorem claim_C6_stix_ids (digest : String → String) (victims : List StixVictim)
    (now now2 : String) :
    feedIds (generate_feed digest victims now) = stixIdsSpec digest [] victims ∧
    feedIds (generate_feed digest victims now) =
      feedIds (generate_feed digest victims now2) := by
  refine ⟨?_, ?_⟩
  · simpa [feedIds, generate_feed] using gfAux_ids digest now victims []
  · simp only [feedIds, generate_feed, gfAux_ids]
